import Mathlib

/-!
# usync — verification of the manifest engine, differential copy driver and transport

A shallow embedding of the core of the `usync` one-way directory synchronizer:
the manifest scanner and revalidator (`src/tree.rs`), the differential copy
driver (`DirectoryEntry::copy_from`), the two `Transmitter` implementations
(`src/file_transfer/local.rs`, `src/file_transfer/remote.rs`), the bincode
codec used on the wire and for the persisted manifest, and the glob-based
exclusion settings (`src/config.rs`).

Conventions of the embedding:
* bytes are `Nat` values below 256, byte strings are `List Nat`;
* filesystem paths are lists of path segments (`List String`);
* `SystemTime` is `MTime` (seconds since the epoch as `Int`, nanoseconds);
* fallible Rust functions returning `io::Result` become `Except Unit`
  (all error values collapse to `()`, which is faithful enough because the
  embedded code never inspects an error it propagates);
* the filesystem seen by a scan is an `FsNode` tree; an `ioErr` node stands
  for an entry on which `stat`/`metadata` fails, and a `symlink` node is
  modeled as a dangling link (following it fails).
-/

namespace USync

/-- Truncate to a 32-bit word. -/
def w32 (n : Nat) : Nat := n % 4294967296

/-- The 32-bit bitwise complement (argument assumed < 2^32). -/
def wnot (a : Nat) : Nat := 4294967295 - a

/-- Rotate a 32-bit word right by `k`. -/
def rotr (k a : Nat) : Nat := (a >>> k) ||| w32 (a <<< (32 - k))

def shaCh (x y z : Nat) : Nat := (x &&& y) ^^^ ((wnot x) &&& z)

def shaMaj (x y z : Nat) : Nat := (x &&& y) ^^^ (x &&& z) ^^^ (y &&& z)

def bSig0 (x : Nat) : Nat := rotr 2 x ^^^ rotr 13 x ^^^ rotr 22 x

def bSig1 (x : Nat) : Nat := rotr 6 x ^^^ rotr 11 x ^^^ rotr 25 x

def sSig0 (x : Nat) : Nat := rotr 7 x ^^^ rotr 18 x ^^^ (x >>> 3)

def sSig1 (x : Nat) : Nat := rotr 17 x ^^^ rotr 19 x ^^^ (x >>> 10)

/-- The SHA-256 round constants. -/
def shaK : List Nat :=
  [1116352408, 1899447441, 3049323471, 3921009573, 961987163,
   1508970993, 2453635748, 2870763221, 3624381080, 310598401,
   607225278, 1426881987, 1925078388, 2162078206, 2614888103,
   3248222580, 3835390401, 4022224774, 264347078, 604807628,
   770255983, 1249150122, 1555081692, 1996064986, 2554220882,
   2821834349, 2952996808, 3210313671, 3336571891, 3584528711,
   113926993, 338241895, 666307205, 773529912, 1294757372,
   1396182291, 1695183700, 1986661051, 2177026350, 2456956037,
   2730485921, 2820302411, 3259730800, 3345764771, 3516065817,
   3600352804, 4094571909, 275423344, 430227734, 506948616,
   659060556, 883997877, 958139571, 1322822218, 1537002063,
   1747873779, 1955562222, 2024104815, 2227730452, 2361852424,
   2428436474, 2756734187, 3204031479, 3329325298]

/-- The SHA-256 initial hash state. -/
def shaH0 : List Nat :=
  [1779033703, 3144134277, 1013904242, 2773480762, 1359893119,
   2600822924, 528734635, 1541459225]

/-- The `k` bytes of `n`, little-endian. -/
def leBytes : Nat → Nat → List Nat
  | 0, _ => []
  | k + 1, n => n % 256 :: leBytes k (n / 256)

/-- The `k` bytes of `n`, big-endian. -/
def beBytes (k n : Nat) : List Nat := (leBytes k n).reverse

/-- Little-endian `u64`, as written by `u64::to_le_bytes` in the scanner. -/
def le64 (n : Nat) : List Nat := leBytes 8 n

/-- Group a byte list into big-endian 32-bit words. -/
def bytesToWords : List Nat → List Nat
  | b0 :: b1 :: b2 :: b3 :: rest => (((b0 * 256 + b1) * 256 + b2) * 256 + b3) :: bytesToWords rest
  | _ => []

/-- Extend the 16 block words to the 64-entry message schedule (`fuel` = 48). -/
def extendSchedule : Nat → List Nat → List Nat
  | 0, w => w
  | n + 1, w =>
    let i := w.length
    let nw := w32 (sSig1 (w.getD (i - 2) 0) + w.getD (i - 7) 0 +
                   sSig0 (w.getD (i - 15) 0) + w.getD (i - 16) 0)
    extendSchedule n (w ++ [nw])

/-- One SHA-256 round on the 8-word state. -/
def roundStep (st : List Nat) (k w : Nat) : List Nat :=
  match st with
  | [a, b, c, d, e, f, g, h] =>
    let t1 := w32 (h + bSig1 e + shaCh e f g + k + w)
    let t2 := w32 (bSig0 a + shaMaj a b c)
    [w32 (t1 + t2), a, b, c, w32 (d + t1), e, f, g]
  | other => other

/-- Compress one 64-byte block into the running hash state. -/
def compressBlock (h : List Nat) (blockBytes : List Nat) : List Nat :=
  let w := extendSchedule 48 (bytesToWords blockBytes)
  let st := (List.zip shaK w).foldl (fun st kw => roundStep st kw.1 kw.2) h
  List.zipWith (fun a b => w32 (a + b)) h st

/-- SHA-256 padding: 0x80, zeros to 56 mod 64, then the bit length big-endian. -/
def padMsg (msg : List Nat) : List Nat :=
  let len := msg.length
  let zeros := (120 - (len + 1) % 64) % 64
  msg ++ 128 :: List.replicate zeros 0 ++ beBytes 8 (8 * len)

/-- Split into 64-byte chunks (`fuel` bounds the recursion). -/
def chunksF : Nat → List Nat → List (List Nat)
  | 0, _ => []
  | _ + 1, [] => []
  | f + 1, l => l.take 64 :: chunksF f (l.drop 64)

/-- SHA-256 of a byte list, as its 32 digest bytes.  Embeds `tree.rs::hash`,
which streams the input through `ring`'s SHA-256. -/
def sha256 (msg : List Nat) : List Nat :=
  let padded := padMsg msg
  let hh := (chunksF padded.length padded).foldl compressBlock shaH0
  hh.foldr (fun wrd acc => beBytes 4 wrd ++ acc) []

/-- UTF-8 bytes of one character. -/
def utf8Char (c : Char) : List Nat :=
  let n := c.toNat
  if n < 128 then [n]
  else if n < 2048 then [192 ||| (n >>> 6), 128 ||| (n &&& 63)]
  else if n < 65536 then
    [224 ||| (n >>> 12), 128 ||| ((n >>> 6) &&& 63), 128 ||| (n &&& 63)]
  else
    [240 ||| (n >>> 18), 128 ||| ((n >>> 12) &&& 63), 128 ||| ((n >>> 6) &&& 63), 128 ||| (n &&& 63)]

/-- UTF-8 bytes of a string, as `str::as_bytes` exposes them. -/
def strBytes (s : String) : List Nat := (s.data.map utf8Char).flatten

/-- The SHA-256 test vector for `"abc"`, asserted by `test_vectors` in `tree.rs`. -/
theorem sha256_abc :
    sha256 (strBytes "abc") =
      [186, 120, 22, 191, 143, 1, 207, 234, 65, 65, 64, 222, 93, 174, 34, 35, 176, 3, 97, 163,
       150, 23, 122, 156, 180, 16, 255, 97, 242, 0, 21, 173] := by decide

/-! ## Data model: `FileEntry`, `DirectoryEntry`, the filesystem -/

/-- The 32 zero bytes: the stored hash of a file in `TimestampTest` mode. -/
def zeros32 : List Nat := List.replicate 32 0

/-- A `std::time::SystemTime`, split as `filetime::FileTime` splits it. -/
structure MTime where
  secs : Int
  nanos : Nat
deriving DecidableEq, Repr

/-- The `config::ManifestMode`. -/
inductive ManifestMode where
  | timestampTest
  | hash
deriving DecidableEq, Repr

/-- The `tree::FileEntry`, a leaf of the manifest tree. -/
structure FileEntry where
  name : String
  modification_time : MTime
  file_size : Nat
  hash_value : List Nat
deriving DecidableEq, Repr

/-- The `tree::DirectoryEntry`, an internal node of the manifest tree. -/
structure DirectoryEntry where
  name : String
  modification_time : MTime
  subdirs : List DirectoryEntry
  files : List FileEntry
  hash_value : List Nat

/-- The filesystem as a scan observes it.  `ioErr` is an entry whose
`stat`/`metadata` fails; a `symlink` is modeled as dangling, so following it
fails while `symlink_metadata` succeeds. -/
inductive FsNode where
  | file (name : String) (mtime : MTime) (content : List Nat)
  | dir (name : String) (mtime : MTime) (entries : List FsNode)
  | symlink (name : String)
  | ioErr (name : String)

/-- The final path segment of an entry, as `DirEntry::file_name` returns it. -/
def FsNode.name : FsNode → String
  | .file n _ _ => n
  | .dir n _ _ => n
  | .symlink n => n
  | .ioErr n => n

instance instDecEqExcept {ε α : Type} [DecidableEq ε] [DecidableEq α] :
    DecidableEq (Except ε α)
  | .ok x, .ok y =>
    match decEq x y with
    | isTrue h => isTrue (h ▸ rfl)
    | isFalse h => isFalse (fun he => h (Except.ok.inj he))
  | .error x, .error y =>
    match decEq x y with
    | isTrue h => isTrue (h ▸ rfl)
    | isFalse h => isFalse (fun he => h (Except.error.inj he))
  | .ok _, .error _ => isFalse (fun he => Except.noConfusion he)
  | .error _, .ok _ => isFalse (fun he => Except.noConfusion he)

/-! ## The scan: `DirectoryEntry::create`

`create` reads a directory, iterates its entries in enumeration order, skips
excluded entries and symlinks, recurses into subdirectories and hashes files,
while accumulating `hash_input`; the directory's own `hash_value` is the
SHA-256 of that accumulated input.  The exclusion test `settings.is_excluded`
is abstracted as a predicate `excl` on the traversed path (root included),
exactly the argument `create` passes to it. -/

/-- The `FileEntry::new`: hash the content in `Hash` mode, 32 zero bytes in
`TimestampTest` mode; the size is the stat size, the mtime the stat mtime. -/
def fileEntryOf (mode : ManifestMode) (name : String) (mtime : MTime) (content : List Nat) :
    FileEntry :=
  { name, modification_time := mtime, file_size := content.length,
    hash_value := if mode = ManifestMode.hash then sha256 content else zeros32 }

/-- Result of examining one (non-excluded) directory entry during a scan. -/
inductive ChildRes where
  | skip
  | sub (d : DirectoryEntry)
  | fileR (f : FileEntry)

mutual

/-- Processing of one non-excluded directory entry in the loop body of
`DirectoryEntry::create`: `symlink_metadata` (fails on `ioErr`), skip
symlinks, recurse into directories, build a `FileEntry` for regular files. -/
def createNode (childPath : List String) (e : FsNode) (excl : List String → Bool)
    (mode : ManifestMode) : Except Unit ChildRes :=
  match e with
  | .ioErr _ => Except.error ()
  | .symlink _ => Except.ok ChildRes.skip
  | .file n mt c => Except.ok (ChildRes.fileR (fileEntryOf mode n mt c))
  | .dir n mt es =>
    match createChildren childPath es excl mode with
    | Except.error e' => Except.error e'
    | Except.ok (ds, fs, hi) =>
      Except.ok (ChildRes.sub
        { name := n, modification_time := mt, subdirs := ds, files := fs,
          hash_value := sha256 hi })
termination_by structural e

/-- The scan loop of `DirectoryEntry::create` over a directory's entries:
returns the subdirectory entries, the file entries and the accumulated hash
input, each in enumeration order. -/
def createChildren (path : List String) (ns : List FsNode) (excl : List String → Bool)
    (mode : ManifestMode) :
    Except Unit (List DirectoryEntry × List FileEntry × List Nat) :=
  match ns with
  | [] => Except.ok ([], [], [])
  | e :: rest =>
    let childPath := path ++ [e.name]
    if excl childPath then createChildren path rest excl mode
    else
      match createNode childPath e excl mode with
      | Except.error e' => Except.error e'
      | Except.ok r =>
        match createChildren path rest excl mode with
        | Except.error e' => Except.error e'
        | Except.ok (ds, fs, hi) =>
          match r with
          | ChildRes.skip => Except.ok (ds, fs, hi)
          | ChildRes.sub d => Except.ok (d :: ds, fs, strBytes d.name ++ d.hash_value ++ hi)
          | ChildRes.fileR f =>
            Except.ok (ds, f :: fs, strBytes f.name ++ le64 f.file_size ++ f.hash_value ++ hi)
termination_by structural ns

end

/-- The `DirectoryEntry::create` on a directory with the given name, mtime and
entries, scanning below `path`. -/
def createDir (path : List String) (name : String) (mtime : MTime) (entries : List FsNode)
    (excl : List String → Bool) (mode : ManifestMode) : Except Unit DirectoryEntry :=
  match createChildren path entries excl mode with
  | Except.error e' => Except.error e'
  | Except.ok (subdirs, files, hashInput) =>
    Except.ok { name, modification_time := mtime, subdirs, files,
                hash_value := sha256 hashInput }

/-- The `DirectoryEntry::new` at a root path: `read_dir` fails unless the root is
a directory. -/
def DirectoryEntry.createRoot (rootPath : List String) (n : FsNode)
    (excl : List String → Bool) (mode : ManifestMode) : Except Unit DirectoryEntry :=
  match n with
  | .dir name mtime entries => createDir rootPath name mtime entries excl mode
  | _ => Except.error ()

set_option maxRecDepth 1000000

/-! ## C1: the composite directory hash -/

/-- The hash-input contribution of one scanned child, per the loop body of
`DirectoryEntry::create`: a subdirectory contributes name bytes then hash, a
file contributes name bytes, little-endian `u64` size, then hash. -/
def contribOf : DirectoryEntry ⊕ FileEntry → List Nat
  | .inl d => strBytes d.name ++ d.hash_value
  | .inr f => strBytes f.name ++ le64 f.file_size ++ f.hash_value

/-- The subdirectory entries of a mixed child list, in order. -/
def dirsOf (cs : List (DirectoryEntry ⊕ FileEntry)) : List DirectoryEntry :=
  cs.filterMap (fun c => match c with | .inl d => some d | .inr _ => none)

/-- The file entries of a mixed child list, in order. -/
def filesOf (cs : List (DirectoryEntry ⊕ FileEntry)) : List FileEntry :=
  cs.filterMap (fun c => match c with | .inl _ => none | .inr f => some f)

/-- A successful scan step produces exactly an interleaving of the resulting
subdirectory and file entries, and the accumulated hash input is the
concatenation of their contributions in that (enumeration) order. -/
theorem createChildren_interleaving (ns : List FsNode) (path : List String)
    (excl : List String → Bool) (mode : ManifestMode)
    (ds : List DirectoryEntry) (fs : List FileEntry) (hi : List Nat)
    (h : createChildren path ns excl mode = Except.ok (ds, fs, hi)) :
    ∃ cs : List (DirectoryEntry ⊕ FileEntry),
      dirsOf cs = ds ∧ filesOf cs = fs ∧ hi = (cs.map contribOf).flatten := by
  induction ns generalizing ds fs hi with
  | nil =>
    rw [createChildren] at h
    simp only [Except.ok.injEq, Prod.mk.injEq] at h
    obtain ⟨rfl, rfl, rfl⟩ := h
    exact ⟨[], rfl, rfl, rfl⟩
  | cons e rest ih =>
    rw [createChildren] at h
    by_cases hex : excl (path ++ [e.name]) = true
    · rw [if_pos hex] at h
      exact ih _ _ _ h
    · rw [if_neg hex] at h
      cases hnode : createNode (path ++ [e.name]) e excl mode with
      | error e' => rw [hnode] at h; cases h
      | ok r =>
        rw [hnode] at h
        cases hrest : createChildren path rest excl mode with
        | error e' => rw [hrest] at h; cases h
        | ok trip =>
          obtain ⟨ds', fs', hi'⟩ := trip
          rw [hrest] at h
          obtain ⟨cs, ihd, ihf, ihh⟩ := ih _ _ _ hrest
          cases r with
          | skip =>
            simp only [Except.ok.injEq, Prod.mk.injEq] at h
            obtain ⟨rfl, rfl, rfl⟩ := h
            exact ⟨cs, ihd, ihf, ihh⟩
          | sub d =>
            simp only [Except.ok.injEq, Prod.mk.injEq] at h
            obtain ⟨rfl, rfl, rfl⟩ := h
            refine ⟨Sum.inl d :: cs, ?_, ?_, ?_⟩
            · simpa [dirsOf] using ihd
            · simpa [filesOf] using ihf
            · simp [contribOf, ← ihh]
          | fileR f =>
            simp only [Except.ok.injEq, Prod.mk.injEq] at h
            obtain ⟨rfl, rfl, rfl⟩ := h
            refine ⟨Sum.inr f :: cs, ?_, ?_, ?_⟩
            · simpa [dirsOf] using ihd
            · simpa [filesOf] using ihf
            · simp [contribOf, ← ihh]

/-- Epoch modification time. -/
def epoch : MTime := ⟨0, 0⟩

/-- The `subdir` containing `file1.txt` = `"abc"`, both mtimes at the epoch. -/
def subdirNode : FsNode := FsNode.dir "subdir" epoch [FsNode.file "file1.txt" epoch (strBytes "abc")]

/-- The `file2.txt` = `"def"`, mtime at the epoch. -/
def file2Node : FsNode := FsNode.file "file2.txt" epoch (strBytes "def")

/-- The root of scenario B with enumeration order `subdir` then `file2.txt`,
the order the specification states. -/
def rootSubdirFirst : FsNode := FsNode.dir "root" epoch [subdirNode, file2Node]

/-- The root of scenario B with enumeration order `file2.txt` then `subdir`. -/
def rootFile2First : FsNode := FsNode.dir "root" epoch [file2Node, subdirNode]

/-- The digest `b178872f99aa86b175afb23e34943eb04a40f3ae6940e14b89f2608813135abb`
asserted by the spec and by the `hash_small_subtree` test. -/
def vecB178 : List Nat :=
  [177, 120, 135, 47, 153, 170, 134, 177, 117, 175, 178, 62, 52, 148, 62, 176,
   74, 64, 243, 174, 105, 64, 225, 75, 137, 242, 96, 136, 19, 19, 90, 187]

/-- The digest `0220120283880eacf26ea855fedca965b02fc526ee2a612410842d1bd90685f6`:
what scenario B actually hashes to under enumeration order `subdir` then
`file2.txt`. -/
def vec0220 : List Nat :=
  [2, 32, 18, 2, 131, 136, 14, 172, 242, 110, 168, 85, 254, 220, 169, 101,
   176, 47, 197, 38, 238, 42, 97, 36, 16, 132, 45, 27, 217, 6, 133, 246]

/-- C1, counterexample: with enumeration order `subdir` then `file2.txt` — the
order the claim states — the scan of scenario B produces the digest `0220…`,
which is not the claimed `b178…`. -/
theorem C1_counterexample :
    (DirectoryEntry.createRoot ["root"] rootSubdirFirst (fun _ => false)
        ManifestMode.hash).map (fun d => d.hash_value) = Except.ok vec0220 ∧
      vec0220 ≠ vecB178 := by
  constructor
  · decide
  · decide

/-- C1 (amended): every directory entry built by a scan stores as `hash_value`
the SHA-256 of the concatenation, over its children in enumeration order, of
name bytes ‖ (files only) little-endian u64 size ‖ child hash — subdirectories
contribute name and hash only; and scenario B hashes to `b178…` under
enumeration order `file2.txt` then `subdir` (not `subdir` then `file2.txt` as
the claim states). -/
theorem C1_composite_hash :
    (∀ (path : List String) (name : String) (mtime : MTime) (entries : List FsNode)
        (excl : List String → Bool) (mode : ManifestMode) (d : DirectoryEntry),
        createDir path name mtime entries excl mode = Except.ok d →
        ∃ cs : List (DirectoryEntry ⊕ FileEntry),
          dirsOf cs = d.subdirs ∧ filesOf cs = d.files ∧
          d.hash_value = sha256 ((cs.map contribOf).flatten)) ∧
      (DirectoryEntry.createRoot ["root"] rootFile2First (fun _ => false)
          ManifestMode.hash).map (fun d => d.hash_value) = Except.ok vecB178 := by
  constructor
  · intro path name mtime entries excl mode d h
    rw [createDir] at h
    cases hc : createChildren path entries excl mode with
    | error e' => rw [hc] at h; cases h
    | ok trip =>
      obtain ⟨ds, fs, hi⟩ := trip
      rw [hc] at h
      obtain ⟨cs, hd, hf, hh⟩ := createChildren_interleaving entries path excl mode ds fs hi hc
      cases h
      exact ⟨cs, hd, hf, by rw [hh]⟩
  · decide

/-- C1 witness: the invariant applied to a concrete successful scan (the empty
root directory). -/
theorem C1_composite_hash_witness :
    createDir ["r"] "r" epoch [] (fun _ => false) ManifestMode.hash =
        Except.ok { name := "r", modification_time := epoch, subdirs := [],
                    files := [], hash_value := sha256 [] } ∧
      ∃ cs : List (DirectoryEntry ⊕ FileEntry),
        dirsOf cs = [] ∧ filesOf cs = [] ∧ sha256 [] = sha256 ((cs.map contribOf).flatten) :=
  ⟨rfl, C1_composite_hash.1 ["r"] "r" epoch [] (fun _ => false) ManifestMode.hash _ rfl⟩

/-! ## C2: the differential copy driver

`Manifest::copy_from` starts `DirectoryEntry::copy_from` at the empty path;
`copy_subdirs` recurses (into a synthetic empty target when the target has no
same-named subdirectory, skipping the subtree when `(mtime, hash)` are equal),
then `copy_files` transmits each source file that is absent from the target
directory or differs under `FileEntry`'s `PartialEq`. -/

/-- The `util::find_named` on file entries: the first entry with the given name. -/
def findFile (l : List FileEntry) (n : String) : Option FileEntry :=
  l.find? (fun f => f.name == n)

/-- The `util::find_named` on directory entries. -/
def findDir (l : List DirectoryEntry) (n : String) : Option DirectoryEntry :=
  l.find? (fun d => d.name == n)

/-- The `impl PartialEq for FileEntry`: size, mtime and hash. -/
def fileEq (a b : FileEntry) : Bool :=
  a.file_size == b.file_size && a.modification_time == b.modification_time &&
    a.hash_value == b.hash_value

/-- The `impl PartialEq for DirectoryEntry`: mtime and hash. -/
def dirEq (a b : DirectoryEntry) : Bool :=
  a.modification_time == b.modification_time && a.hash_value == b.hash_value

/-- The `DirectoryEntry::empty`.  Its `modification_time` is `SystemTime::now()` in
the source; the driver never reads it (the synthetic entry has no children to
compare), so the epoch stands in for `now`. -/
def emptyDir (name : String) : DirectoryEntry :=
  { name, modification_time := epoch, subdirs := [], files := [], hash_value := sha256 [] }

/-- The `copy_files` condition: transmit when the target directory has no
same-named file or the found file differs under `PartialEq`. -/
def wouldTransmit (tgt : DirectoryEntry) (f : FileEntry) : Bool :=
  match findFile tgt.files f.name with
  | none => true
  | some ex => !fileEq ex f

/-- The transmissions issued by `copy_files` for the source files `sfs`
against target directory `tgt`, in order. -/
def traceFiles (tgt : DirectoryEntry) (path : List String) (sfs : List FileEntry) :
    List (List String) :=
  match sfs with
  | [] => []
  | f :: rest =>
    (if wouldTransmit tgt f then [path ++ [f.name]] else []) ++ traceFiles tgt path rest

mutual

/-- The transmissions issued by `copy_from(self = tgt, path, source = src)`,
in call order: `copy_subdirs` first, then `copy_files`. -/
def traceDir (tgt : DirectoryEntry) (path : List String) (src : DirectoryEntry) :
    List (List String) :=
  match src with
  | ⟨_, _, sds, sfs, _⟩ => traceSubdirs tgt path sds ++ traceFiles tgt path sfs
termination_by structural src

/-- The transmissions issued by `copy_subdirs` for the source subdirectories
`sds` against target directory `tgt`. -/
def traceSubdirs (tgt : DirectoryEntry) (path : List String) (sds : List DirectoryEntry) :
    List (List String) :=
  match sds with
  | [] => []
  | sd :: rest =>
    (match findDir tgt.subdirs sd.name with
     | none => traceDir (emptyDir sd.name) (path ++ [sd.name]) sd
     | some ex =>
       if dirEq ex sd then [] else traceDir ex (path ++ [sd.name]) sd) ++
      traceSubdirs tgt path rest
termination_by structural sds

end

/-- The `copy_files` with a transmitter `t`, propagating the first error. -/
def copyFilesM {ε : Type} (tgt : DirectoryEntry) (path : List String)
    (sfs : List FileEntry) (t : List String → Except ε Unit) : Except ε Unit :=
  match sfs with
  | [] => Except.ok ()
  | f :: rest =>
    match (if wouldTransmit tgt f then t (path ++ [f.name]) else Except.ok ()) with
    | Except.error e => Except.error e
    | Except.ok _ => copyFilesM tgt path rest t

mutual

/-- The `DirectoryEntry::copy_from` with a transmitter `t`. -/
def copyDirM {ε : Type} (tgt : DirectoryEntry) (path : List String) (src : DirectoryEntry)
    (t : List String → Except ε Unit) : Except ε Unit :=
  match src with
  | ⟨_, _, sds, sfs, _⟩ =>
    match copySubdirsM tgt path sds t with
    | Except.error e => Except.error e
    | Except.ok _ => copyFilesM tgt path sfs t
termination_by structural src

/-- The `DirectoryEntry::copy_subdirs` with a transmitter `t`. -/
def copySubdirsM {ε : Type} (tgt : DirectoryEntry) (path : List String)
    (sds : List DirectoryEntry) (t : List String → Except ε Unit) : Except ε Unit :=
  match sds with
  | [] => Except.ok ()
  | sd :: rest =>
    match (match findDir tgt.subdirs sd.name with
           | none => copyDirM (emptyDir sd.name) (path ++ [sd.name]) sd t
           | some ex =>
             if dirEq ex sd then Except.ok ()
             else copyDirM ex (path ++ [sd.name]) sd t) with
    | Except.error e => Except.error e
    | Except.ok _ => copySubdirsM tgt path rest t
termination_by structural sds

end

/-- The `Manifest::copy_from`: the driver starts at the empty relative path. -/
def Manifest.copyFrom {ε : Type} (tgt src : DirectoryEntry)
    (t : List String → Except ε Unit) : Except ε Unit :=
  copyDirM tgt [] src t

/-- Run a transmitter over a list of paths in order, stopping at and
returning the first error. -/
def runTransmits {ε : Type} (t : List String → Except ε Unit) :
    List (List String) → Except ε Unit
  | [] => Except.ok ()
  | p :: ps =>
    match t p with
    | Except.error e => Except.error e
    | Except.ok _ => runTransmits t ps

theorem runTransmits_append {ε : Type} (t : List String → Except ε Unit)
    (a b : List (List String)) :
    runTransmits t (a ++ b) =
      match runTransmits t a with
      | Except.error e => Except.error e
      | Except.ok _ => runTransmits t b := by
  induction a with
  | nil => simp [runTransmits]
  | cons p ps ih =>
    simp only [List.cons_append, runTransmits]
    cases t p <;> simp [ih]

theorem copyFilesM_eq_run {ε : Type} (tgt : DirectoryEntry) (path : List String)
    (sfs : List FileEntry) (t : List String → Except ε Unit) :
    copyFilesM tgt path sfs t = runTransmits t (traceFiles tgt path sfs) := by
  induction sfs with
  | nil => rw [copyFilesM, traceFiles]; rfl
  | cons f rest ih =>
    rw [copyFilesM, traceFiles]
    by_cases hw : wouldTransmit tgt f = true
    · rw [if_pos hw, if_pos hw, List.singleton_append, runTransmits]
      cases t (path ++ [f.name]) <;> simp [ih]
    · rw [if_neg hw, if_neg hw, List.nil_append, ih]

mutual

theorem copyDirM_eq_run {ε : Type} (tgt : DirectoryEntry) (path : List String)
    (src : DirectoryEntry) (t : List String → Except ε Unit) :
    copyDirM tgt path src t = runTransmits t (traceDir tgt path src) :=
  match src with
  | ⟨n, mt, sds, sfs, hv⟩ => by
    rw [copyDirM, traceDir, runTransmits_append, copySubdirsM_eq_run tgt path sds t]
    cases runTransmits t (traceSubdirs tgt path sds) <;>
      simp [copyFilesM_eq_run tgt path sfs t]
termination_by structural src

theorem copySubdirsM_eq_run {ε : Type} (tgt : DirectoryEntry) (path : List String)
    (sds : List DirectoryEntry) (t : List String → Except ε Unit) :
    copySubdirsM tgt path sds t = runTransmits t (traceSubdirs tgt path sds) :=
  match sds with
  | [] => by rw [copySubdirsM, traceSubdirs]; rfl
  | sd :: rest => by
    rw [copySubdirsM, traceSubdirs, runTransmits_append]
    cases hfd : findDir tgt.subdirs sd.name with
    | none =>
      rw [copyDirM_eq_run (emptyDir sd.name) (path ++ [sd.name]) sd t]
      cases runTransmits t (traceDir (emptyDir sd.name) (path ++ [sd.name]) sd) <;>
        simp [copySubdirsM_eq_run tgt path rest t]
    | some ex =>
      by_cases hde : dirEq ex sd = true
      · simp only [if_pos hde, runTransmits]
        exact copySubdirsM_eq_run tgt path rest t
      · simp only [if_neg hde]
        rw [copyDirM_eq_run ex (path ++ [sd.name]) sd t]
        cases runTransmits t (traceDir ex (path ++ [sd.name]) sd) <;>
          simp [copySubdirsM_eq_run tgt path rest t]
termination_by structural sds

end

/-- The pairs `(target entry, source entry, relative path)` the recursive walk
of `copy_from` visits, starting from `(tgt0, src0, path0)`: recursion happens
for a source subdirectory exactly when the target has no same-named
subdirectory (with a synthetic empty target) or the found one differs in
`(modification_time, hash_value)`; an equal pair's subtree is skipped. -/
inductive Reaches (tgt0 src0 : DirectoryEntry) (path0 : List String) :
    DirectoryEntry → DirectoryEntry → List String → Prop
  | refl : Reaches tgt0 src0 path0 tgt0 src0 path0
  | stepMissing {tgt src : DirectoryEntry} {path : List String} {sd : DirectoryEntry} :
      Reaches tgt0 src0 path0 tgt src path → sd ∈ src.subdirs →
      findDir tgt.subdirs sd.name = none →
      Reaches tgt0 src0 path0 (emptyDir sd.name) sd (path ++ [sd.name])
  | stepDiff {tgt src : DirectoryEntry} {path : List String} {sd ex : DirectoryEntry} :
      Reaches tgt0 src0 path0 tgt src path → sd ∈ src.subdirs →
      findDir tgt.subdirs sd.name = some ex → dirEq ex sd = false →
      Reaches tgt0 src0 path0 ex sd (path ++ [sd.name])

theorem Reaches.trans {t0 s0 : DirectoryEntry} {p0 : List String}
    {t1 s1 : DirectoryEntry} {p1 : List String} {t2 s2 : DirectoryEntry} {p2 : List String}
    (h2 : Reaches t1 s1 p1 t2 s2 p2) (h1 : Reaches t0 s0 p0 t1 s1 p1) :
    Reaches t0 s0 p0 t2 s2 p2 := by
  induction h2 with
  | refl => exact h1
  | stepMissing _ hmem hfd ih => exact Reaches.stepMissing ih hmem hfd
  | stepDiff _ hmem hfd hde ih => exact Reaches.stepDiff ih hmem hfd hde

theorem mem_traceFiles {tgt : DirectoryEntry} {path p : List String}
    {sfs : List FileEntry} :
    p ∈ traceFiles tgt path sfs ↔
      ∃ f, f ∈ sfs ∧ p = path ++ [f.name] ∧ wouldTransmit tgt f = true := by
  induction sfs with
  | nil => simp [traceFiles]
  | cons f rest ih =>
    rw [traceFiles]
    by_cases hw : wouldTransmit tgt f = true
    · rw [if_pos hw]
      constructor
      · intro hp
        rcases List.mem_append.1 hp with hp | hp
        · exact ⟨f, List.mem_cons_self .., (List.mem_singleton.1 hp), hw⟩
        · obtain ⟨g, hg, hpg, hwg⟩ := ih.1 hp
          exact ⟨g, List.mem_cons_of_mem _ hg, hpg, hwg⟩
      · rintro ⟨g, hg, rfl, hwg⟩
        rcases List.mem_cons.1 hg with rfl | hg
        · exact List.mem_append_left _ (List.mem_singleton.2 rfl)
        · exact List.mem_append_right _ (ih.2 ⟨g, hg, rfl, hwg⟩)
    · rw [if_neg hw, List.nil_append]
      constructor
      · intro hp
        obtain ⟨g, hg, hpg, hwg⟩ := ih.1 hp
        exact ⟨g, List.mem_cons_of_mem _ hg, hpg, hwg⟩
      · rintro ⟨g, hg, rfl, hwg⟩
        rcases List.mem_cons.1 hg with rfl | hg
        · exact absurd hwg hw
        · exact ih.2 ⟨g, hg, rfl, hwg⟩

/-- The step condition of the walk: the child target the walk pairs with
source subdirectory `sd` under target `tgt`, if the subtree is not skipped. -/
def stepTarget (tgt sd : DirectoryEntry) : Option DirectoryEntry :=
  match findDir tgt.subdirs sd.name with
  | none => some (emptyDir sd.name)
  | some ex => if dirEq ex sd then none else some ex

theorem reaches_step {tgt0 src0 : DirectoryEntry} {path0 : List String}
    {tgt src : DirectoryEntry} {path : List String} {sd ct : DirectoryEntry}
    (h : Reaches tgt0 src0 path0 tgt src path) (hmem : sd ∈ src.subdirs)
    (hst : stepTarget tgt sd = some ct) :
    Reaches tgt0 src0 path0 ct sd (path ++ [sd.name]) := by
  cases hfd : findDir tgt.subdirs sd.name with
  | none =>
    simp only [stepTarget, hfd, Option.some.injEq] at hst
    exact hst ▸ Reaches.stepMissing h hmem hfd
  | some ex =>
    simp only [stepTarget, hfd] at hst
    by_cases hde : dirEq ex sd = true
    · simp [hde] at hst
    · simp only [if_neg hde, Option.some.injEq] at hst
      exact hst ▸ Reaches.stepDiff h hmem hfd (Bool.not_eq_true _ ▸ hde)

mutual

/-- Forward direction of the trace characterization for one directory pair. -/
theorem mem_traceDir_to {p : List String} (tgt : DirectoryEntry) (path : List String)
    (src : DirectoryEntry) (h : p ∈ traceDir tgt path src) :
    ∃ t' s' pre, Reaches tgt src path t' s' pre ∧
      ∃ f, f ∈ s'.files ∧ p = pre ++ [f.name] ∧ wouldTransmit t' f = true :=
  match src with
  | ⟨n, mt, sds, sfs, hv⟩ => by
    rw [traceDir] at h
    rcases List.mem_append.1 h with h | h
    · obtain ⟨sd, ct, hmem, hst, t', s', pre, hr, hf⟩ := mem_traceSubdirs_to tgt path sds h
      exact ⟨t', s', pre, hr.trans (reaches_step Reaches.refl hmem hst), hf⟩
    · obtain ⟨f, hf, hp, hw⟩ := mem_traceFiles.1 h
      exact ⟨tgt, ⟨n, mt, sds, sfs, hv⟩, path, Reaches.refl, f, hf, hp, hw⟩
termination_by structural src

/-- Forward direction over the loop of `copy_subdirs`: a transmission below
some source subdirectory that the walk recursed into. -/
theorem mem_traceSubdirs_to {p : List String} (tgt : DirectoryEntry) (path : List String)
    (sds : List DirectoryEntry) (h : p ∈ traceSubdirs tgt path sds) :
    ∃ sd ct, sd ∈ sds ∧ stepTarget tgt sd = some ct ∧
      ∃ t' s' pre, Reaches ct sd (path ++ [sd.name]) t' s' pre ∧
        ∃ f, f ∈ s'.files ∧ p = pre ++ [f.name] ∧ wouldTransmit t' f = true :=
  match sds with
  | [] => by rw [traceSubdirs] at h; cases h
  | sd :: rest => by
    rw [traceSubdirs] at h
    rcases List.mem_append.1 h with h | h
    · cases hfd : findDir tgt.subdirs sd.name with
      | none =>
        simp only [hfd] at h
        obtain ⟨t', s', pre, hr, hf⟩ := mem_traceDir_to (emptyDir sd.name) (path ++ [sd.name]) sd h
        exact ⟨sd, emptyDir sd.name, List.mem_cons_self sd rest,
          by simp [stepTarget, hfd], t', s', pre, hr, hf⟩
      | some ex =>
        simp only [hfd] at h
        by_cases hde : dirEq ex sd = true
        · rw [if_pos hde] at h; cases h
        · rw [if_neg hde] at h
          obtain ⟨t', s', pre, hr, hf⟩ := mem_traceDir_to ex (path ++ [sd.name]) sd h
          exact ⟨sd, ex, List.mem_cons_self sd rest,
            by simp [stepTarget, hfd, hde], t', s', pre, hr, hf⟩
    · obtain ⟨sd', ct, hmem, hst, rest'⟩ := mem_traceSubdirs_to tgt path rest h
      exact ⟨sd', ct, List.mem_cons_of_mem _ hmem, hst, rest'⟩
termination_by structural sds

end

theorem mem_traceSubdirs_of {q : List String} {tgt : DirectoryEntry} {path : List String}
    {sds : List DirectoryEntry} {sd ct : DirectoryEntry} (hmem : sd ∈ sds)
    (hst : stepTarget tgt sd = some ct) (hq : q ∈ traceDir ct (path ++ [sd.name]) sd) :
    q ∈ traceSubdirs tgt path sds := by
  induction sds with
  | nil => cases hmem
  | cons hd rest ih =>
    rw [traceSubdirs]
    rcases List.mem_cons.1 hmem with rfl | hmem
    · refine List.mem_append_left _ ?_
      cases hfd : findDir tgt.subdirs sd.name with
      | none =>
        simp only [stepTarget, hfd, Option.some.injEq] at hst
        rw [← hst] at hq
        simp only [hfd]
        exact hq
      | some ex =>
        simp only [stepTarget, hfd] at hst
        by_cases hde : dirEq ex sd = true
        · simp [hde] at hst
        · simp only [if_neg hde, Option.some.injEq] at hst
          rw [← hst] at hq
          simp only [hfd, if_neg hde]
          exact hq
    · exact List.mem_append_right _ (ih hmem)

theorem mem_traceDir_lift1 {q : List String} {tgt src : DirectoryEntry} {path : List String}
    {sd ct : DirectoryEntry} (hmem : sd ∈ src.subdirs)
    (hst : stepTarget tgt sd = some ct) (hq : q ∈ traceDir ct (path ++ [sd.name]) sd) :
    q ∈ traceDir tgt path src := by
  obtain ⟨n, mt, sds, sfs, hv⟩ := src
  rw [traceDir]
  exact List.mem_append_left _ (mem_traceSubdirs_of hmem hst hq)

theorem mem_traceDir_lift {tgt src : DirectoryEntry} {path : List String}
    {t' s' : DirectoryEntry} {pre : List String}
    (hr : Reaches tgt src path t' s' pre) :
    ∀ q, q ∈ traceDir t' pre s' → q ∈ traceDir tgt path src := by
  induction hr with
  | refl => exact fun q h => h
  | stepMissing h hmem hfd ih =>
    intro q hq
    exact ih q (mem_traceDir_lift1 hmem (by simp [stepTarget, hfd]) hq)
  | stepDiff h hmem hfd hde ih =>
    intro q hq
    exact ih q (mem_traceDir_lift1 hmem (by simp [stepTarget, hfd, hde]) hq)

theorem mem_traceDir_of {tgt src : DirectoryEntry} {path : List String}
    {t' s' : DirectoryEntry} {pre : List String} {f : FileEntry}
    (hr : Reaches tgt src path t' s' pre) (hf : f ∈ s'.files)
    (hw : wouldTransmit t' f = true) : pre ++ [f.name] ∈ traceDir tgt path src := by
  refine mem_traceDir_lift hr _ ?_
  obtain ⟨n, mt, sds, sfs, hv⟩ := s'
  rw [traceDir]
  exact List.mem_append_right _ (mem_traceFiles.2 ⟨f, hf, rfl, hw⟩)

mutual

/-- The root-relative paths of all files in a manifest subtree rooted at
`path`. -/
def sourceFilePathsDir (path : List String) (src : DirectoryEntry) : List (List String) :=
  match src with
  | ⟨_, _, sds, sfs, _⟩ =>
    sourceFilePathsSubdirs path sds ++ sfs.map (fun f => path ++ [f.name])
termination_by structural src

/-- The root-relative paths of all files below the subdirectories `sds`. -/
def sourceFilePathsSubdirs (path : List String) (sds : List DirectoryEntry) :
    List (List String) :=
  match sds with
  | [] => []
  | sd :: rest =>
    sourceFilePathsDir (path ++ [sd.name]) sd ++ sourceFilePathsSubdirs path rest
termination_by structural sds

end

mutual

theorem traceDir_sub {p : List String} (tgt : DirectoryEntry) (path : List String)
    (src : DirectoryEntry) (h : p ∈ traceDir tgt path src) :
    p ∈ sourceFilePathsDir path src :=
  match src with
  | ⟨n, mt, sds, sfs, hv⟩ => by
    rw [traceDir] at h
    rw [sourceFilePathsDir]
    rcases List.mem_append.1 h with h | h
    · exact List.mem_append_left _ (traceSubdirs_sub tgt path sds h)
    · refine List.mem_append_right _ ?_
      obtain ⟨f, hf, rfl, _⟩ := mem_traceFiles.1 h
      exact List.mem_map_of_mem _ hf
termination_by structural src

theorem traceSubdirs_sub {p : List String} (tgt : DirectoryEntry) (path : List String)
    (sds : List DirectoryEntry) (h : p ∈ traceSubdirs tgt path sds) :
    p ∈ sourceFilePathsSubdirs path sds :=
  match sds with
  | [] => by rw [traceSubdirs] at h; cases h
  | sd :: rest => by
    rw [traceSubdirs] at h
    rw [sourceFilePathsSubdirs]
    rcases List.mem_append.1 h with h | h
    · refine List.mem_append_left _ ?_
      cases hfd : findDir tgt.subdirs sd.name with
      | none =>
        simp only [hfd] at h
        exact traceDir_sub (emptyDir sd.name) (path ++ [sd.name]) sd h
      | some ex =>
        simp only [hfd] at h
        by_cases hde : dirEq ex sd = true
        · rw [if_pos hde] at h; cases h
        · rw [if_neg hde] at h
          exact traceDir_sub ex (path ++ [sd.name]) sd h
    · exact List.mem_append_right _ (traceSubdirs_sub tgt path rest h)
termination_by structural sds

end

/-- The walk of a manifest directory by name components. -/
def lookupDir (d : DirectoryEntry) : List String → Option DirectoryEntry
  | [] => some d
  | n :: rest =>
    match findDir d.subdirs n with
    | none => none
    | some sd => lookupDir sd rest

/-- Claim C2 as stated: the driver transmits `p` exactly when `p` names a
source file whose corresponding target directory has no same-named file, or
a same-named file differing in size, mtime or hash. -/
def claimTransmit (tgt src : DirectoryEntry) (p : List String) : Bool :=
  match p.getLast? with
  | none => false
  | some n =>
    let pre := p.dropLast
    match lookupDir src pre with
    | none => false
    | some sd =>
      match findFile sd.files n with
      | none => false
      | some f =>
        match lookupDir tgt pre with
        | none => true
        | some td => wouldTransmit td f

/-- A source manifest whose `subdir` holds one file `f` touched at time 1. -/
def srcC2 : DirectoryEntry :=
  { name := "root", modification_time := epoch,
    subdirs := [{ name := "subdir", modification_time := epoch, subdirs := [],
                  files := [{ name := "f", modification_time := ⟨1, 0⟩, file_size := 1,
                              hash_value := zeros32 }],
                  hash_value := zeros32 }],
    files := [], hash_value := zeros32 }

/-- A target manifest whose `subdir` compares equal to the source's (same
mtime and hash) but whose file `f` has a different mtime. -/
def tgtC2 : DirectoryEntry :=
  { name := "root", modification_time := epoch,
    subdirs := [{ name := "subdir", modification_time := epoch, subdirs := [],
                  files := [{ name := "f", modification_time := ⟨2, 0⟩, file_size := 1,
                              hash_value := zeros32 }],
                  hash_value := zeros32 }],
    files := [], hash_value := zeros32 }

/-- C2, counterexample: the source file `subdir/f` differs from the target's
in `modification_time`, so the claim says it is transmitted; but its parent
directories compare equal in `(modification_time, hash_value)`, so
`copy_subdirs` skips the subtree and the driver transmits nothing. -/
theorem C2_counterexample :
    claimTransmit tgtC2 srcC2 ["subdir", "f"] = true ∧
      traceDir tgtC2 [] srcC2 = [] := by
  constructor
  · decide
  · decide

/-- C2 (amended): the driver calls `transmit` on exactly the root-relative
paths `pre ++ [f.name]` such that the recursive walk reaches the directory
pair containing `f` — recursion being skipped below a target subdirectory
equal in `(modification_time, hash_value)` — and `f` is absent from the
reached target directory or differs in one of size, mtime, hash; the first
transmit error aborts the walk and is returned (the driver equals running the
transmitter over the trace in order); and every transmitted path is the
root-relative path of a source file, never absolute. -/
theorem C2_driver :
    (∀ (p : List String) (tgt src : DirectoryEntry),
        p ∈ traceDir tgt [] src ↔
          ∃ t' s' pre, Reaches tgt src [] t' s' pre ∧
            ∃ f, f ∈ s'.files ∧ p = pre ++ [f.name] ∧ wouldTransmit t' f = true) ∧
      (∀ (ε : Type) (t : List String → Except ε Unit) (tgt src : DirectoryEntry),
        Manifest.copyFrom tgt src t = runTransmits t (traceDir tgt [] src)) ∧
      (∀ (p : List String) (tgt src : DirectoryEntry),
        p ∈ traceDir tgt [] src → p ∈ sourceFilePathsDir [] src) := by
  refine ⟨?_, ?_, ?_⟩
  · intro p tgt src
    constructor
    · exact mem_traceDir_to tgt [] src
    · rintro ⟨t', s', pre, hr, f, hf, rfl, hw⟩
      exact mem_traceDir_of hr hf hw
  · intro ε t tgt src
    exact copyDirM_eq_run tgt [] src t
  · intro p tgt src h
    exact traceDir_sub tgt [] src h

/-- A one-file source manifest used by the C2 witness. -/
def srcC2w : DirectoryEntry :=
  { name := "sroot", modification_time := epoch, subdirs := [],
    files := [{ name := "g", modification_time := epoch, file_size := 0,
                hash_value := zeros32 }],
    hash_value := zeros32 }

/-- C2 witness: the characterization and the relative-path property applied
to a concrete pair (empty target, source with a single file `g`). -/
theorem C2_driver_witness :
    ["g"] ∈ traceDir (emptyDir "troot") [] srcC2w ∧
      ["g"] ∈ sourceFilePathsDir [] srcC2w := by
  have hmem : ["g"] ∈ traceDir (emptyDir "troot") [] srcC2w :=
    (C2_driver.1 ["g"] (emptyDir "troot") srcC2w).2
      ⟨emptyDir "troot", srcC2w, [], Reaches.refl,
        { name := "g", modification_time := epoch, file_size := 0, hash_value := zeros32 },
        by decide, rfl, by decide⟩
  exact ⟨hmem, C2_driver.2.2 ["g"] (emptyDir "troot") srcC2w hmem⟩

/-! ## C3 and C9: revalidation (`DirectoryEntry::validate0` / `validate`)

`validate0` walks the on-disk directory against the stored entry: it returns
`Ok(false)` on the first discrepancy, propagates I/O errors, and finally
checks that the number of examined (non-excluded) disk entries equals the
stored child count.  `validate` maps any error to `false`
(`unwrap_or(false)`). -/

mutual

/-- The loop body of `validate0` for one non-excluded disk entry of a
directory whose stored entry is `d`: a subdirectory must appear in
`d.subdirs` and recursively validate; a file must appear in `d.files` with
matching `(mtime, size)`; `DirEntry::metadata` fails on an `ioErr` entry; a
symlink is never in the manifest of a scan, and following one for the
`(mtime, size)` stat fails in this model (dangling). -/
def validateNode (d : DirectoryEntry) (childPath : List String) (e : FsNode)
    (excl : List String → Bool) : Except Unit Bool :=
  match e with
  | .ioErr _ => Except.error ()
  | .dir n mt es =>
    match findDir d.subdirs n with
    | none => Except.ok false
    | some o =>
      if mt = o.modification_time then validateChildren o childPath es excl 0
      else Except.ok false
  | .file n mt c =>
    match findFile d.files n with
    | none => Except.ok false
    | some o => Except.ok (mt == o.modification_time && c.length == o.file_size)
  | .symlink n =>
    match findFile d.files n with
    | none => Except.ok false
    | some _ => Except.error ()
termination_by structural e

/-- The entry loop of `validate0` over the disk entries `ns` of the directory
stored as `d`, with `count` examined entries so far; at the end the examined
count must equal the stored child count. -/
def validateChildren (d : DirectoryEntry) (path : List String) (ns : List FsNode)
    (excl : List String → Bool) (count : Nat) : Except Unit Bool :=
  match ns with
  | [] => Except.ok (count == d.subdirs.length + d.files.length)
  | e :: rest =>
    if excl (path ++ [e.name]) then validateChildren d path rest excl count
    else
      match validateNode d (path ++ [e.name]) e excl with
      | Except.error e' => Except.error e'
      | Except.ok false => Except.ok false
      | Except.ok true => validateChildren d path rest excl (count + 1)
termination_by structural ns

end

/-- The `validate0` at the root: `false` if the root is missing or not a
directory, then the root mtime check and the entry loop. -/
def validate0Root (d : DirectoryEntry) (fs : Option FsNode) (rootPath : List String)
    (excl : List String → Bool) : Except Unit Bool :=
  match fs with
  | none => Except.ok false
  | some (.ioErr _) => Except.error ()
  | some (.file _ _ _) => Except.ok false
  | some (.symlink _) => Except.error ()
  | some (.dir _ mt es) =>
    if mt = d.modification_time then validateChildren d rootPath es excl 0
    else Except.ok false

/-- The `DirectoryEntry::validate`: `validate0(...).unwrap_or(false)`. -/
def validateB (d : DirectoryEntry) (fs : Option FsNode) (rootPath : List String)
    (excl : List String → Bool) : Bool :=
  match validate0Root d fs rootPath excl with
  | Except.error _ => false
  | Except.ok b => b

/-- The number of non-excluded entries of a disk directory, as the disk side
of the revalidation count check. -/
def countNonExcluded (path : List String) (ns : List FsNode) (excl : List String → Bool) :
    Nat :=
  match ns with
  | [] => 0
  | e :: rest =>
    (if excl (path ++ [e.name]) then 0 else 1) + countNonExcluded path rest excl

mutual

/-- The specification-side failure conditions of revalidation for one
non-excluded disk entry; with `strict := false` this is the condition list
exactly as claim C3 states it (an entry whose name is absent from the
manifest is not itself a failure, only the count check is), with
`strict := true` a missing counterpart also fails (the amended reading). -/
def revFailNode (strict : Bool) (d : DirectoryEntry) (childPath : List String)
    (e : FsNode) (excl : List String → Bool) : Bool :=
  match e with
  | .ioErr _ => false
  | .symlink _ => false
  | .dir n mt es =>
    match findDir d.subdirs n with
    | none => strict
    | some o =>
      !(mt == o.modification_time) ||
        !(countNonExcluded childPath es excl == o.subdirs.length + o.files.length) ||
        revFailList strict o childPath es excl
  | .file n mt c =>
    match findFile d.files n with
    | none => strict
    | some o => !(mt == o.modification_time) || !(c.length == o.file_size)
termination_by structural e

/-- Some non-excluded disk entry among `ns` fails. -/
def revFailList (strict : Bool) (d : DirectoryEntry) (path : List String)
    (ns : List FsNode) (excl : List String → Bool) : Bool :=
  match ns with
  | [] => false
  | e :: rest =>
    (if excl (path ++ [e.name]) then false
     else revFailNode strict d (path ++ [e.name]) e excl) ||
      revFailList strict d path rest excl
termination_by structural ns

end

/-- The specification-side failure condition of revalidation at the root:
root missing, root not a directory, a directory mtime mismatch, a file
`(mtime, size)` mismatch, or a non-excluded entry count mismatch (and, when
`strict`, an entry without a same-named manifest counterpart of its kind). -/
def revFailRoot (strict : Bool) (d : DirectoryEntry) (fs : Option FsNode)
    (rootPath : List String) (excl : List String → Bool) : Bool :=
  match fs with
  | none => true
  | some (.file _ _ _) => true
  | some (.symlink _) => true
  | some (.ioErr _) => true
  | some (.dir _ mt es) =>
    !(mt == d.modification_time) ||
      !(countNonExcluded rootPath es excl == d.subdirs.length + d.files.length) ||
      revFailList strict d rootPath es excl

mutual

/-- A filesystem tree without symlinks and without failing stats. -/
def cleanNode : FsNode → Bool
  | .file _ _ _ => true
  | .symlink _ => false
  | .ioErr _ => false
  | .dir _ _ es => cleanList es
termination_by structural n => n

/-- All trees in the list are clean. -/
def cleanList : List FsNode → Bool
  | [] => true
  | e :: rest => cleanNode e && cleanList rest
termination_by structural l => l

end

mutual

/-- On a clean tree, `validate0`'s verdict for one disk entry is exactly the
negation of the specification-side failure condition (strict reading). -/
theorem validateNode_eq_spec (e : FsNode) (d : DirectoryEntry) (childPath : List String)
    (excl : List String → Bool) (hc : cleanNode e = true) :
    validateNode d childPath e excl = Except.ok (!revFailNode true d childPath e excl) :=
  match e with
  | .ioErr n => by rw [cleanNode] at hc; cases hc
  | .symlink n => by rw [cleanNode] at hc; cases hc
  | .file n mt c => by
    rw [validateNode, revFailNode]
    cases findFile d.files n with
    | none => rfl
    | some o => simp
  | .dir n mt es => by
    rw [cleanNode] at hc
    cases hfd : findDir d.subdirs n with
    | none => simp [validateNode, revFailNode, hfd]
    | some o =>
      by_cases hmt : mt = o.modification_time
      · simp only [validateNode, revFailNode, hfd, if_pos hmt]
        rw [validateChildren_eq_spec es o childPath excl 0 hc]
        simp [hmt, Nat.zero_add]
      · simp only [validateNode, revFailNode, hfd, if_neg hmt]
        simp [hmt]

/-- On a clean entry list, the `validate0` loop result is the count check
together with the absence of any child failure. -/
theorem validateChildren_eq_spec (ns : List FsNode) (d : DirectoryEntry)
    (path : List String) (excl : List String → Bool) (count : Nat)
    (hc : cleanList ns = true) :
    validateChildren d path ns excl count =
      Except.ok ((count + countNonExcluded path ns excl ==
          d.subdirs.length + d.files.length) && !revFailList true d path ns excl) :=
  match ns with
  | [] => by rw [validateChildren, countNonExcluded, revFailList]; simp
  | e :: rest => by
    rw [cleanList, Bool.and_eq_true] at hc
    rw [validateChildren, countNonExcluded, revFailList]
    by_cases hex : excl (path ++ [e.name]) = true
    · rw [if_pos hex, if_pos hex, if_pos hex,
        validateChildren_eq_spec rest d path excl count hc.2]
      simp
    · rw [if_neg hex, if_neg hex, if_neg hex, validateNode_eq_spec e d _ excl hc.1]
      by_cases hf : revFailNode true d (path ++ [e.name]) e excl = true
      · simp [hf]
      · rw [Bool.not_eq_true] at hf
        rw [hf]
        show validateChildren d path rest excl (count + 1) = _
        rw [validateChildren_eq_spec rest d path excl (count + 1) hc.2]
        simp [Nat.add_assoc]
termination_by structural ns

end

/-- A clean optional root. -/
def cleanOpt : Option FsNode → Bool
  | none => true
  | some n => cleanNode n

/-- On a clean tree, `validate` is the negation of the specification-side
failure condition (strict reading). -/
theorem validateB_eq_spec (d : DirectoryEntry) (fs : Option FsNode)
    (rootPath : List String) (excl : List String → Bool) (hc : cleanOpt fs = true) :
    validateB d fs rootPath excl = !revFailRoot true d fs rootPath excl := by
  cases fs with
  | none => rfl
  | some n =>
    cases n with
    | ioErr n => rw [cleanOpt, cleanNode] at hc; cases hc
    | symlink n => rw [cleanOpt, cleanNode] at hc; cases hc
    | file n mt c => rfl
    | dir n mt es =>
      rw [cleanOpt, cleanNode] at hc
      rw [validateB, validate0Root, revFailRoot]
      by_cases hmt : mt = d.modification_time
      · rw [if_pos hmt, validateChildren_eq_spec es d rootPath excl 0 hc]
        simp [hmt, Nat.zero_add]
      · rw [if_neg hmt]
        simp [hmt]

/-! Content-agnosticism: revalidation factors through the stat view of the
tree (names, mtimes, sizes, kinds) — file content is never read. -/

/-- What `stat` exposes of a tree: kinds, names, mtimes and sizes, but not
file contents. -/
inductive StatNode where
  | file (name : String) (mtime : MTime) (size : Nat)
  | dir (name : String) (mtime : MTime) (entries : List StatNode)
  | symlink (name : String)
  | ioErr (name : String)

/-- The name of a stat-view node. -/
def StatNode.nameS : StatNode → String
  | .file n _ _ => n
  | .dir n _ _ => n
  | .symlink n => n
  | .ioErr n => n

mutual

/-- The stat view of a tree. -/
def statView : FsNode → StatNode
  | .file n mt c => .file n mt c.length
  | .dir n mt es => .dir n mt (statViewList es)
  | .symlink n => .symlink n
  | .ioErr n => .ioErr n
termination_by structural n => n

/-- The stat view of an entry list. -/
def statViewList : List FsNode → List StatNode
  | [] => []
  | e :: rest => statView e :: statViewList rest
termination_by structural l => l

end

mutual

/-- The `validate0`'s verdict on one entry depends only on its stat view. -/
theorem validateNode_statView (e e' : FsNode) (d : DirectoryEntry)
    (childPath : List String) (excl : List String → Bool)
    (h : statView e = statView e') :
    validateNode d childPath e excl = validateNode d childPath e' excl :=
  match e, e' with
  | .file n mt c, .file n' mt' c' => by
    rw [statView, statView] at h
    obtain ⟨rfl, rfl, hlen⟩ := StatNode.file.inj h
    rw [validateNode, validateNode, hlen]
  | .file _ _ _, .dir _ _ _ => by rw [statView, statView] at h; cases h
  | .file _ _ _, .symlink _ => by rw [statView, statView] at h; cases h
  | .file _ _ _, .ioErr _ => by rw [statView, statView] at h; cases h
  | .dir _ _ _, .file _ _ _ => by rw [statView, statView] at h; cases h
  | .dir n mt es, .dir n' mt' es' => by
    rw [statView, statView] at h
    obtain ⟨rfl, rfl, hes⟩ := StatNode.dir.inj h
    cases hfd : findDir d.subdirs n with
    | none => simp [validateNode, hfd]
    | some o =>
      by_cases hmt : mt = o.modification_time
      · simp only [validateNode, hfd, if_pos hmt]
        rw [validateChildren_statView es es' o childPath excl 0 hes]
      · simp only [validateNode, hfd, if_neg hmt]
  | .dir _ _ _, .symlink _ => by rw [statView, statView] at h; cases h
  | .dir _ _ _, .ioErr _ => by rw [statView, statView] at h; cases h
  | .symlink _, .file _ _ _ => by rw [statView, statView] at h; cases h
  | .symlink _, .dir _ _ _ => by rw [statView, statView] at h; cases h
  | .symlink n, .symlink n' => by
    rw [statView, statView] at h
    obtain rfl := StatNode.symlink.inj h
    rfl
  | .symlink _, .ioErr _ => by rw [statView, statView] at h; cases h
  | .ioErr _, .file _ _ _ => by rw [statView, statView] at h; cases h
  | .ioErr _, .dir _ _ _ => by rw [statView, statView] at h; cases h
  | .ioErr _, .symlink _ => by rw [statView, statView] at h; cases h
  | .ioErr n, .ioErr n' => by rfl
termination_by structural e

/-- The stat view preserves entry names. -/
theorem statView_name (e : FsNode) : (statView e).nameS = e.name := by
  cases e <;> rfl

/-- The `validate0` loop depends only on the entries' stat views. -/
theorem validateChildren_statView (ns ns' : List FsNode) (d : DirectoryEntry)
    (path : List String) (excl : List String → Bool) (count : Nat)
    (h : statViewList ns = statViewList ns') :
    validateChildren d path ns excl count = validateChildren d path ns' excl count :=
  match ns, ns' with
  | [], [] => rfl
  | [], _ :: _ => by rw [statViewList, statViewList] at h; cases h
  | _ :: _, [] => by rw [statViewList, statViewList] at h; cases h
  | e :: rest, e' :: rest' => by
    rw [statViewList, statViewList] at h
    obtain ⟨he, hrest⟩ := List.cons.inj h
    have hname : e.name = e'.name := by
      rw [← statView_name e, he, statView_name e']
    rw [validateChildren, validateChildren, ← hname]
    by_cases hex : excl (path ++ [e.name]) = true
    · rw [if_pos hex, if_pos hex, validateChildren_statView rest rest' d path excl count hrest]
    · rw [if_neg hex, if_neg hex, validateNode_statView e e' d (path ++ [e.name]) excl he]
      cases validateNode d (path ++ [e.name]) e' excl with
      | error e'' => rfl
      | ok b =>
        cases b with
        | false => rfl
        | true => rw [validateChildren_statView rest rest' d path excl (count + 1) hrest]
termination_by structural ns

end

/-- The `validate` reads only stat data: two trees with the same stat view — in
particular the same bytes nowhere required — validate identically. -/
theorem validateB_statView (d : DirectoryEntry) (rootPath : List String)
    (excl : List String → Bool) (fs fs' : FsNode) (h : statView fs = statView fs') :
    validateB d (some fs) rootPath excl = validateB d (some fs') rootPath excl := by
  cases fs with
  | file n mt c =>
    cases fs' with
    | file n' mt' c' => rfl
    | dir n' mt' es' => rw [statView, statView] at h; cases h
    | symlink n' => rw [statView, statView] at h; cases h
    | ioErr n' => rw [statView, statView] at h; cases h
  | symlink n =>
    cases fs' with
    | file n' mt' c' => rw [statView, statView] at h; cases h
    | dir n' mt' es' => rw [statView, statView] at h; cases h
    | symlink n' => rfl
    | ioErr n' => rw [statView, statView] at h; cases h
  | ioErr n =>
    cases fs' with
    | file n' mt' c' => rw [statView, statView] at h; cases h
    | dir n' mt' es' => rw [statView, statView] at h; cases h
    | symlink n' => rw [statView, statView] at h; cases h
    | ioErr n' => rfl
  | dir n mt es =>
    cases fs' with
    | file n' mt' c' => rw [statView, statView] at h; cases h
    | symlink n' => rw [statView, statView] at h; cases h
    | ioErr n' => rw [statView, statView] at h; cases h
    | dir n' mt' es' =>
      rw [statView, statView] at h
      obtain ⟨rfl, rfl, hes⟩ := StatNode.dir.inj h
      rw [validateB, validateB, validate0Root, validate0Root]
      by_cases hmt : mt = d.modification_time
      · rw [if_pos hmt, if_pos hmt, validateChildren_statView es es' d rootPath excl 0 hes]
      · rw [if_neg hmt, if_neg hmt]

/-- A stored manifest root with a single file `y`. -/
def dC3 : DirectoryEntry :=
  { name := "root", modification_time := epoch, subdirs := [],
    files := [{ name := "y", modification_time := epoch, file_size := 0,
                hash_value := zeros32 }],
    hash_value := zeros32 }

/-- An on-disk root holding a single file `x` instead — same entry count. -/
def fsC3 : FsNode := FsNode.dir "root" epoch [FsNode.file "x" epoch []]

/-- C3, counterexample: the disk holds an unknown file `x` while the manifest
lists `y`; the non-excluded entry count matches the child count, the root is
a directory with matching mtime, and no paired file mismatches — none of the
claim's conditions holds — yet `validate` returns false (`find_named` fails
on `x`). -/
theorem C3_counterexample :
    validateB dC3 (some fsC3) ["root"] (fun _ => false) = false ∧
      revFailRoot false dC3 (some fsC3) ["root"] (fun _ => false) = false ∧
      cleanNode fsC3 = true :=
  ⟨by decide, by decide, by decide⟩

/-- C3 (amended): on a tree without symlinks or failing stats, revalidation
returns false exactly when the root is missing, the root is not a directory,
some directory's on-disk mtime differs from the stored one, some paired
file's on-disk `(mtime, size)` differs, some directory's number of
non-excluded on-disk entries differs from the stored child count, **or some
non-excluded on-disk entry has no same-named stored counterpart of its
kind**; excluded entries are skipped on the disk side; and revalidation
factors through the stat view of the tree, so file content is never read or
rehashed. -/
theorem C3_revalidate :
    (∀ (d : DirectoryEntry) (fs : Option FsNode) (rootPath : List String)
        (excl : List String → Bool), cleanOpt fs = true →
        (validateB d fs rootPath excl = false ↔
          revFailRoot true d fs rootPath excl = true)) ∧
      (∀ (d : DirectoryEntry) (rootPath : List String) (excl : List String → Bool)
        (fs fs' : FsNode), statView fs = statView fs' →
        validateB d (some fs) rootPath excl = validateB d (some fs') rootPath excl) := by
  constructor
  · intro d fs rootPath excl hc
    rw [validateB_eq_spec d fs rootPath excl hc]
    cases revFailRoot true d fs rootPath excl <;> simp
  · exact fun d rootPath excl fs fs' h => validateB_statView d rootPath excl fs fs' h

/-- C3 witness: the characterization applied to the concrete mismatching
pair, and content-agnosticism applied to two trees equal up to content. -/
theorem C3_revalidate_witness :
    revFailRoot true dC3 (some fsC3) ["root"] (fun _ => false) = true ∧
      validateB dC3 (some (FsNode.dir "root" epoch [FsNode.file "y" epoch [7]]))
          ["root"] (fun _ => false) =
        validateB dC3 (some (FsNode.dir "root" epoch [FsNode.file "y" epoch [8]]))
          ["root"] (fun _ => false) :=
  ⟨(C3_revalidate.1 dC3 (some fsC3) ["root"] (fun _ => false) (by decide)).mp (by decide),
    C3_revalidate.2 dC3 ["root"] (fun _ => false) _ _ rfl⟩

/-! ## Exclusion settings and the glob model (`config.rs`)

`HashSettings::is_excluded` matches the traversed path against glob patterns;
`with_additional_exclusion` parses the manifest path's string form with
`glob::Pattern::new` and `unwrap()`s, so an invalid pattern panics.  The glob
crate is external; this models its core fragment — literals, `?`, `*`, and
`[...]`/`[!...]` character sets — with `Pattern::new` failing on an unclosed
`[` (the crate's "invalid range pattern" error) and `*` matching any run of
characters (the crate's default `MatchOptions` do not require literal
separators). -/

/-- One glob pattern token. -/
inductive GTok where
  | lit (c : Char)
  | anyOne
  | star
  | cls (neg : Bool) (cs : List Char)
deriving DecidableEq, Repr

/-- Characters of a `[...]` set up to the closing `]`; `none` when the
bracket is never closed. -/
def parseCls : List Char → Option (List Char × List Char)
  | [] => none
  | ']' :: rest => some ([], rest)
  | c :: rest =>
    match parseCls rest with
    | none => none
    | some (cs, r) => some (c :: cs, r)

/-- Glob pattern parser (`fuel` bounds the recursion; one character is
consumed per step, so the string length suffices). -/
def globParseF : Nat → List Char → Option (List GTok)
  | _, [] => some []
  | 0, _ :: _ => none
  | fuel + 1, '[' :: rest =>
    let stripped := match rest with
      | '!' :: r => (true, r)
      | _ => (false, rest)
    match parseCls stripped.2 with
    | none => none
    | some (cs, r) =>
      match globParseF fuel r with
      | none => none
      | some ts => some (GTok.cls stripped.1 cs :: ts)
  | fuel + 1, '?' :: rest =>
    match globParseF fuel rest with
    | none => none
    | some ts => some (GTok.anyOne :: ts)
  | fuel + 1, '*' :: rest =>
    match globParseF fuel rest with
    | none => none
    | some ts => some (GTok.star :: ts)
  | fuel + 1, c :: rest =>
    match globParseF fuel rest with
    | none => none
    | some ts => some (GTok.lit c :: ts)

/-- A compiled glob pattern. -/
structure GlobPat where
  toks : List GTok
deriving DecidableEq, Repr

/-- The `glob::Pattern::new`: `none` is the crate's `PatternError`. -/
def Pattern.new (s : String) : Option GlobPat :=
  match globParseF s.data.length s.data with
  | none => none
  | some ts => some ⟨ts⟩

/-- All suffixes of a character list, longest first. -/
def tailsList : List Char → List (List Char)
  | [] => [[]]
  | c :: cs => (c :: cs) :: tailsList cs

/-- Glob matching on the rendered path string. -/
def globMatch : List GTok → List Char → Bool
  | [], [] => true
  | [], _ :: _ => false
  | .lit _ :: _, [] => false
  | .lit c :: ts, x :: xs => c == x && globMatch ts xs
  | .anyOne :: _, [] => false
  | .anyOne :: ts, _ :: xs => globMatch ts xs
  | .cls _ _ :: _, [] => false
  | .cls neg cs :: ts, x :: xs => (neg != cs.contains x) && globMatch ts xs
  | .star :: ts, xs => (tailsList xs).any (fun suf => globMatch ts suf)

/-- The `config::HashSettings`. -/
structure HashSettings where
  force_rebuild : Bool
  mode : ManifestMode
  exclude_patterns : List GlobPat
deriving DecidableEq, Repr

/-- A segment path rendered the way `Path` displays it. -/
def pathString (p : List String) : String := String.intercalate "/" p

/-- The `HashSettings::is_excluded`: some pattern matches the traversed path. -/
def HashSettings.is_excluded (st : HashSettings) (p : List String) : Bool :=
  st.exclude_patterns.any (fun pat => globMatch pat.toks (pathString p).data)

/-- The `HashSettings::with_additional_exclusion`: compiles the path's string
form as a glob pattern and appends it; `Pattern::new(..).unwrap()` panics —
modeled as `none` — when the string is not a valid pattern. -/
def HashSettings.with_additional_exclusion (st : HashSettings) (excludePath : String) :
    Option HashSettings :=
  match Pattern.new excludePath with
  | none => none
  | some pat =>
    some { st with exclude_patterns := st.exclude_patterns ++ [pat] }

/-! ## The bincode codec (`remote.rs::CONFIG`, `tree.rs` persistence)

Scalars are fixed-width little-endian; strings and sequences carry a `u64`
length prefix.  The wire configuration (`bincode::config().limit(1 << 26)
.little_endian()`) bounds the total bytes a single deserialize may consume at
64 MiB; `Manifest::save`/`load` instead call the legacy free functions
`bincode::serialize_into`/`deserialize_from`, which use fixed-width
little-endian encoding with **no** size limit.  Strings are modeled in their
ASCII fragment (`from_utf8` validation restricted to bytes < 128). -/

/-- The wire codec's size limit: 64 MiB. -/
def wireLimit : Nat := 67108864

/-- Read `k` raw bytes, charging them against the optional budget the way
bincode's `Bounded` size limit does. -/
def readBytes (limit : Option Nat) (consumed k : Nat) (bs : List Nat) :
    Except Unit (List Nat × List Nat × Nat) :=
  match limit with
  | some l =>
    if consumed + k > l then Except.error ()
    else if bs.length < k then Except.error ()
    else Except.ok (bs.take k, bs.drop k, consumed + k)
  | none =>
    if bs.length < k then Except.error ()
    else Except.ok (bs.take k, bs.drop k, consumed + k)

/-- A little-endian byte list as a number. -/
def fromLE : List Nat → Nat
  | [] => 0
  | b :: rest => b + 256 * fromLE rest

/-- Read a fixed-width little-endian `u64`. -/
def readU64 (limit : Option Nat) (consumed : Nat) (bs : List Nat) :
    Except Unit (Nat × List Nat × Nat) :=
  match readBytes limit consumed 8 bs with
  | Except.error e => Except.error e
  | Except.ok (w, rest, c) => Except.ok (fromLE w, rest, c)

/-- ASCII decoding of a byte list (the modeled fragment of `from_utf8`). -/
def bytesToAscii (bs : List Nat) : Option String :=
  if bs.all (fun b => b < 128) then some ⟨bs.map Char.ofNat⟩ else none

/-- Read a length-prefixed string. -/
def readString (limit : Option Nat) (consumed : Nat) (bs : List Nat) :
    Except Unit (String × List Nat × Nat) :=
  match readU64 limit consumed bs with
  | Except.error e => Except.error e
  | Except.ok (len, rest, c) =>
    match readBytes limit c len rest with
    | Except.error e => Except.error e
    | Except.ok (w, rest', c') =>
      match bytesToAscii w with
      | none => Except.error ()
      | some s => Except.ok (s, rest', c')

/-- Read a `SystemTime` (serde: seconds since epoch as `u64`, nanos as
`u32`). -/
def readMTime (limit : Option Nat) (consumed : Nat) (bs : List Nat) :
    Except Unit (MTime × List Nat × Nat) :=
  match readU64 limit consumed bs with
  | Except.error e => Except.error e
  | Except.ok (secs, rest, c) =>
    match readBytes limit c 4 rest with
    | Except.error e => Except.error e
    | Except.ok (w, rest', c') => Except.ok (⟨Int.ofNat secs, fromLE w⟩, rest', c')

/-- Decode one `FileEntry`: name, mtime, size, then the 32 raw hash bytes. -/
def decodeFile (limit : Option Nat) (consumed : Nat) (bs : List Nat) :
    Except Unit (FileEntry × List Nat × Nat) :=
  match readString limit consumed bs with
  | Except.error e => Except.error e
  | Except.ok (name, bs1, c1) =>
    match readMTime limit c1 bs1 with
    | Except.error e => Except.error e
    | Except.ok (mt, bs2, c2) =>
      match readU64 limit c2 bs2 with
      | Except.error e => Except.error e
      | Except.ok (size, bs3, c3) =>
        match readBytes limit c3 32 bs3 with
        | Except.error e => Except.error e
        | Except.ok (hv, bs4, c4) =>
          Except.ok (⟨name, mt, size, hv⟩, bs4, c4)

/-- Decode `n` `FileEntry` values. -/
def decodeFileList (limit : Option Nat) : Nat → Nat → List Nat →
    Except Unit (List FileEntry × List Nat × Nat)
  | 0, consumed, bs => Except.ok ([], bs, consumed)
  | n + 1, consumed, bs =>
    match decodeFile limit consumed bs with
    | Except.error e => Except.error e
    | Except.ok (f, bs1, c1) =>
      match decodeFileList limit n c1 bs1 with
      | Except.error e => Except.error e
      | Except.ok (fs, bs2, c2) => Except.ok (f :: fs, bs2, c2)

mutual

/-- Decode one `DirectoryEntry`: name, mtime, `u64`-counted subdirectories,
`u64`-counted files, then the 32 raw hash bytes. -/
def decodeDir (limit : Option Nat) : Nat → Nat → List Nat →
    Except Unit (DirectoryEntry × List Nat × Nat)
  | 0, _, _ => Except.error ()
  | fuel + 1, consumed, bs =>
    match readString limit consumed bs with
    | Except.error e => Except.error e
    | Except.ok (name, bs1, c1) =>
      match readMTime limit c1 bs1 with
      | Except.error e => Except.error e
      | Except.ok (mt, bs2, c2) =>
        match readU64 limit c2 bs2 with
        | Except.error e => Except.error e
        | Except.ok (nsub, bs3, c3) =>
          match decodeDirList limit fuel nsub c3 bs3 with
          | Except.error e => Except.error e
          | Except.ok (sds, bs4, c4) =>
            match readU64 limit c4 bs4 with
            | Except.error e => Except.error e
            | Except.ok (nfile, bs5, c5) =>
              match decodeFileList limit nfile c5 bs5 with
              | Except.error e => Except.error e
              | Except.ok (fs, bs6, c6) =>
                match readBytes limit c6 32 bs6 with
                | Except.error e => Except.error e
                | Except.ok (hv, bs7, c7) =>
                  Except.ok (⟨name, mt, sds, fs, hv⟩, bs7, c7)
termination_by structural fuel => fuel

/-- Decode `n` `DirectoryEntry` values. -/
def decodeDirList (limit : Option Nat) : Nat → Nat → Nat → List Nat →
    Except Unit (List DirectoryEntry × List Nat × Nat)
  | _, 0, consumed, bs => Except.ok ([], bs, consumed)
  | 0, _ + 1, _, _ => Except.error ()
  | fuel + 1, n + 1, consumed, bs =>
    match decodeDir limit fuel consumed bs with
    | Except.error e => Except.error e
    | Except.ok (d, bs1, c1) =>
      match decodeDirList limit fuel n c1 bs1 with
      | Except.error e => Except.error e
      | Except.ok (ds, bs2, c2) => Except.ok (d :: ds, bs2, c2)
termination_by structural fuel _ _ _ => fuel

end

/-- Encode a length-prefixed string. -/
def encodeString (s : String) : List Nat := le64 (strBytes s).length ++ strBytes s

/-- Encode a `SystemTime`. -/
def encodeMTime (mt : MTime) : List Nat := le64 mt.secs.toNat ++ leBytes 4 mt.nanos

/-- Encode one `FileEntry`. -/
def encodeFile (f : FileEntry) : List Nat :=
  encodeString f.name ++ encodeMTime f.modification_time ++ le64 f.file_size ++ f.hash_value

mutual

/-- Encode one `DirectoryEntry` (bincode, fixed-width little-endian). -/
def encodeDir (d : DirectoryEntry) : List Nat :=
  match d with
  | ⟨name, mt, sds, fs, hv⟩ =>
    encodeString name ++ encodeMTime mt ++ le64 sds.length ++ encodeDirList sds ++
      le64 fs.length ++ (fs.map encodeFile).flatten ++ hv
termination_by structural d

/-- Encode a list of `DirectoryEntry` values back to back. -/
def encodeDirList : List DirectoryEntry → List Nat
  | [] => []
  | d :: rest => encodeDir d ++ encodeDirList rest
termination_by structural l => l

end

/-- The `Manifest::load` without the `force_rebuild` short-circuit: `File::open`
(fails when the file is absent) then `bincode::deserialize_from` with the
legacy, unlimited configuration. -/
def manifestDecode (bytes : Option (List Nat)) : Except Unit DirectoryEntry :=
  match bytes with
  | none => Except.error ()
  | some bs =>
    match decodeDir none bs.length 0 bs with
    | Except.error e => Except.error e
    | Except.ok (d, _, _) => Except.ok d

/-- The `Manifest::load`: errors on `force_rebuild`, a missing file, or a decode
failure. -/
def manifestLoad (st : HashSettings) (bytes : Option (List Nat)) :
    Except Unit DirectoryEntry :=
  if st.force_rebuild then Except.error () else manifestDecode bytes

theorem leBytes_length (k : Nat) : ∀ n, (leBytes k n).length = k := by
  induction k with
  | zero => intro n; rfl
  | succ k ih => intro n; rw [leBytes]; simp [ih]

theorem fromLE_leBytes (k : Nat) : ∀ n, fromLE (leBytes k n) = n % 256 ^ k := by
  induction k with
  | zero => intro n; simp [leBytes, fromLE, Nat.mod_one]
  | succ k ih =>
    intro n
    rw [leBytes, fromLE, ih, pow_succ']
    exact (Nat.mod_mul).symm

theorem readBytes_none_exact (c k : Nat) (xs rest : List Nat) (h : xs.length = k) :
    readBytes none c k (xs ++ rest) = Except.ok (xs, rest, c + k) := by
  subst h
  rw [readBytes]
  rw [if_neg (by simp)]
  rw [List.take_left, List.drop_left]

theorem readU64_none_le64 (c n : Nat) (rest : List Nat)
    (h : n < 18446744073709551616) :
    readU64 none c (le64 n ++ rest) = Except.ok (n, rest, c + 8) := by
  simp only [readU64, le64,
    readBytes_none_exact c 8 (leBytes 8 n) rest (leBytes_length 8 n),
    fromLE_leBytes 8 n]
  rw [Nat.mod_eq_of_lt (by norm_num at h ⊢; exact h)]

theorem flatten_utf8_ascii : ∀ l : List Char, (∀ c ∈ l, c.toNat < 128) →
    (l.map utf8Char).flatten = l.map Char.toNat := by
  intro l
  induction l with
  | nil => intro _; rfl
  | cons c cs ih =>
    intro h
    rw [List.map_cons, List.map_cons, List.flatten_cons]
    rw [ih (fun x hx => h x (List.mem_cons_of_mem _ hx))]
    have hc : c.toNat < 128 := h c (List.mem_cons_self ..)
    simp [utf8Char, hc]

/-- A string whose characters are all ASCII. -/
def asciiStr (s : String) : Bool := s.data.all (fun c => c.toNat < 128)

theorem asciiStr_mem (s : String) (h : asciiStr s = true) : ∀ c ∈ s.data, c.toNat < 128 := by
  rw [asciiStr, List.all_eq_true] at h
  intro c hc
  simpa using h c hc

theorem strBytes_ascii (s : String) (h : asciiStr s = true) :
    strBytes s = s.data.map Char.toNat := by
  rw [strBytes]
  exact flatten_utf8_ascii s.data (asciiStr_mem s h)

theorem bytesToAscii_strBytes (s : String) (h : asciiStr s = true) :
    bytesToAscii (strBytes s) = some s := by
  rw [strBytes_ascii s h, bytesToAscii]
  rw [if_pos]
  · congr 1
    cases s with
    | mk data =>
      congr 1
      simp only [List.map_map]
      refine (List.map_congr_left (fun c hc => ?_)).trans (List.map_id _)
      exact Char.ofNat_toNat c
  · rw [List.all_eq_true]
    intro b hb
    obtain ⟨c, hc, rfl⟩ := List.mem_map.1 hb
    simpa using asciiStr_mem s h c hc

theorem readString_none_enc (c : Nat) (s : String) (rest : List Nat)
    (h : asciiStr s = true) (hlen : (strBytes s).length < 18446744073709551616) :
    readString none c (encodeString s ++ rest) =
      Except.ok (s, rest, c + 8 + (strBytes s).length) := by
  rw [readString, encodeString, List.append_assoc]
  simp only [readU64_none_le64 c (strBytes s).length (strBytes s ++ rest) hlen,
    readBytes_none_exact (c + 8) (strBytes s).length (strBytes s) rest rfl,
    bytesToAscii_strBytes s h]

/-- A `SystemTime` representable by the serde encoding: at or after the
epoch, seconds in `u64` range, nanos in `u32` range. -/
def wfMTime (mt : MTime) : Bool :=
  (0 ≤ mt.secs) && (mt.secs < 18446744073709551616) && (mt.nanos < 4294967296)

theorem readMTime_none_enc (c : Nat) (mt : MTime) (rest : List Nat)
    (h : wfMTime mt = true) :
    readMTime none c (encodeMTime mt ++ rest) = Except.ok (mt, rest, c + 12) := by
  rw [wfMTime, Bool.and_eq_true, Bool.and_eq_true] at h
  obtain ⟨⟨h0, h1⟩, h2⟩ := h
  simp only [decide_eq_true_eq] at h0 h1 h2
  rw [readMTime, encodeMTime, List.append_assoc]
  simp only [readU64_none_le64 c mt.secs.toNat (leBytes 4 mt.nanos ++ rest) (by omega),
    readBytes_none_exact (c + 8) 4 (leBytes 4 mt.nanos) rest (leBytes_length 4 mt.nanos),
    fromLE_leBytes 4 mt.nanos]
  rw [Nat.mod_eq_of_lt (by norm_num; exact h2)]
  rw [show Int.ofNat mt.secs.toNat = mt.secs from Int.toNat_of_nonneg h0]

/-- The claimed length of 64 MiB plus one byte. -/
def bigN : Nat := 67108865

/-- A name one byte longer than the wire codec's limit. -/
def bigName : String := ⟨List.replicate bigN 'a'⟩

/-- A manifest root whose name alone exceeds 64 MiB. -/
def bigDir : DirectoryEntry :=
  { name := bigName, modification_time := epoch, subdirs := [], files := [],
    hash_value := zeros32 }

theorem asciiStr_bigName : asciiStr bigName = true := by
  rw [asciiStr, List.all_eq_true]
  intro c hc
  rw [bigName] at hc
  simp only [List.mem_replicate] at hc
  rw [hc.2]
  decide

theorem strBytes_bigName_length : (strBytes bigName).length = bigN := by
  rw [strBytes_ascii _ asciiStr_bigName, List.length_map, bigName]
  exact List.length_replicate ..

theorem encodeDir_leaf (name : String) (mt : MTime) (hv : List Nat) :
    encodeDir ⟨name, mt, [], [], hv⟩ =
      encodeString name ++ (encodeMTime mt ++ (le64 0 ++ (le64 0 ++ hv))) := by
  rw [encodeDir, encodeDirList]
  simp

/-- Decoding a leaf directory entry with the unlimited (legacy disk)
configuration succeeds whatever the name length. -/
theorem decodeDir_none_leaf (fuel c : Nat) (name : String) (mt : MTime) (hv : List Nat)
    (rest : List Nat) (hasc : asciiStr name = true)
    (hlen : (strBytes name).length < 18446744073709551616)
    (hmt : wfMTime mt = true) (hhv : hv.length = 32) :
    decodeDir none (fuel + 1) c (encodeDir ⟨name, mt, [], [], hv⟩ ++ rest) =
      Except.ok (⟨name, mt, [], [], hv⟩, rest,
        c + 8 + (strBytes name).length + 12 + 8 + 8 + 32) := by
  rw [encodeDir_leaf, decodeDir, List.append_assoc]
  simp only [readString_none_enc c name _ hasc hlen]
  rw [List.append_assoc]
  simp only [readMTime_none_enc _ mt _ hmt]
  rw [List.append_assoc]
  simp only [readU64_none_le64 _ 0 _ (by norm_num), decodeDirList]
  rw [List.append_assoc]
  simp only [readU64_none_le64 _ 0 _ (by norm_num), decodeFileList,
    readBytes_none_exact _ 32 hv rest hhv]

theorem readBytes_wire_reject (c k : Nat) (bs : List Nat) (h : wireLimit < k) :
    readBytes (some wireLimit) c k bs = Except.error () := by
  rw [readBytes, if_pos (by omega)]

theorem readBytes_some_exact (l c k : Nat) (xs rest : List Nat) (h : xs.length = k)
    (hk : c + k ≤ l) :
    readBytes (some l) c k (xs ++ rest) = Except.ok (xs, rest, c + k) := by
  subst h
  rw [readBytes, if_neg (by omega), if_neg (by simp), List.take_left, List.drop_left]

theorem readU64_wire_le64 (c n : Nat) (rest : List Nat) (hc : c + 8 ≤ wireLimit)
    (hn : n < 18446744073709551616) :
    readU64 (some wireLimit) c (le64 n ++ rest) = Except.ok (n, rest, c + 8) := by
  simp only [readU64, le64,
    readBytes_some_exact wireLimit c 8 (leBytes 8 n) rest (leBytes_length 8 n) hc,
    fromLE_leBytes 8 n]
  rw [Nat.mod_eq_of_lt (by norm_num at hn ⊢; exact hn)]

theorem readString_wire_reject (c n : Nat) (rest : List Nat) (hc : c + 8 ≤ wireLimit)
    (hn : wireLimit < n) (h64 : n < 18446744073709551616) :
    readString (some wireLimit) c (le64 n ++ rest) = Except.error () := by
  rw [readString]
  simp only [readU64_wire_le64 c n rest hc h64,
    readBytes_wire_reject (c + 8) n rest hn]

theorem decodeDir_wire_bigDir (fuel : Nat) :
    decodeDir (some wireLimit) fuel 0 (encodeDir bigDir) = Except.error () := by
  cases fuel with
  | zero => rfl
  | succ f =>
    rw [decodeDir]
    rw [show encodeDir bigDir = encodeDir ⟨bigName, epoch, [], [], zeros32⟩ from rfl]
    rw [encodeDir_leaf, encodeString, strBytes_bigName_length, List.append_assoc]
    simp only [readString_wire_reject 0 bigN _ (by norm_num [wireLimit])
      (by norm_num [wireLimit, bigN]) (by norm_num [bigN])]

theorem manifestDecode_bigDir :
    manifestDecode (some (encodeDir bigDir)) = Except.ok bigDir := by
  rw [manifestDecode]
  have hlen : (encodeDir bigDir).length = bigN + 67 + 1 := by
    rw [show encodeDir bigDir = encodeDir ⟨bigName, epoch, [], [], zeros32⟩ from rfl,
      encodeDir_leaf, encodeString, strBytes_bigName_length]
    simp only [List.length_append, List.length_cons, List.length_nil, encodeMTime, le64,
      leBytes_length, List.length_replicate, zeros32, epoch]
    rw [strBytes_bigName_length]
    omega
  rw [hlen]
  rw [show encodeDir bigDir = encodeDir ⟨bigName, epoch, [], [], zeros32⟩ ++ [] from
    (List.append_nil _).symm]
  simp only [decodeDir_none_leaf (bigN + 67) 0 bigName epoch zeros32 [] asciiStr_bigName
    (by rw [strBytes_bigName_length]; norm_num [bigN]) (by decide) (by simp [zeros32])]
  rfl

/-- C7, counterexample: `Manifest::load` decodes through bincode's legacy
unlimited configuration (`bincode::deserialize_from` in `tree.rs`), so a
persisted manifest containing an object over 64 MiB — here a name of
2^26 + 1 bytes — decodes successfully instead of being rejected. -/
theorem C7_counterexample :
    manifestDecode (some (encodeDir bigDir)) = Except.ok bigDir ∧
      wireLimit < (strBytes bigDir.name).length :=
  ⟨manifestDecode_bigDir,
    by rw [show bigDir.name = bigName from rfl, strBytes_bigName_length]; norm_num [wireLimit, bigN]⟩

/-- C7 (amended): values received over the transport are decoded with the
64 MiB-limited configuration, which rejects any read whose byte budget —
in particular any claimed variable length — exceeds the limit; the persisted
manifest file, however, is decoded by `bincode::deserialize_from`'s default
unlimited configuration, so an oversized object in the manifest file is
accepted, not rejected. -/
theorem C7_size_limit :
    (∀ (c k : Nat) (bs : List Nat), wireLimit < k →
        readBytes (some wireLimit) c k bs = Except.error ()) ∧
      (∀ fuel, decodeDir (some wireLimit) fuel 0 (encodeDir bigDir) = Except.error ()) ∧
      manifestDecode (some (encodeDir bigDir)) = Except.ok bigDir :=
  ⟨readBytes_wire_reject, decodeDir_wire_bigDir, manifestDecode_bigDir⟩

/-- C7 witness: the wire-side rejection applied to a concrete oversized
read. -/
theorem C7_size_limit_witness :
    readBytes (some wireLimit) 0 67108865 [] = Except.error () ∧
      decodeDir (some wireLimit) 3 0 (encodeDir bigDir) = Except.error () :=
  ⟨C7_size_limit.1 0 67108865 [] (by norm_num [wireLimit]), C7_size_limit.2.1 3⟩

/-! ## Filesystem state and the transmitters (`local.rs`, `remote.rs`)

Transmitters are embedded as emitters of filesystem operation traces over a
flat file store; an interrupted run is a prefix of the trace, so atomicity
claims quantify over the intermediate states `statesAlong`. -/

/-- A flat filesystem: files by absolute segment path (content and mtime),
plus the set of existing directories. -/
structure FState where
  files : List (List String × List Nat × MTime)
  dirs : List (List String)
deriving DecidableEq, Repr

/-- The file at `p`, if any. -/
def FState.lookup (s : FState) (p : List String) : Option (List Nat × MTime) :=
  (s.files.find? (fun e => e.1 == p)).map (fun e => e.2)

/-- Create or replace the file at `p`. -/
def setFile (s : FState) (p : List String) (v : List Nat × MTime) : FState :=
  { s with files := (p, v) :: s.files.filter (fun e => !(e.1 == p)) }

/-- Remove the file at `p`. -/
def removeFile (s : FState) (p : List String) : FState :=
  { s with files := s.files.filter (fun e => !(e.1 == p)) }

/-- All ancestor paths of a segment path, itself included. -/
def ancestorDirs : List String → List (List String)
  | [] => [[]]
  | x :: rest => [] :: (ancestorDirs rest).map (fun q => x :: q)

/-- One filesystem operation, as the transmitters issue them. -/
inductive FsOp where
  | create (p : List String)
  | write (p : List String) (bytes : List Nat)
  | rename (src dst : List String)
  | setTime (p : List String) (t : MTime)
  | mkdirAll (p : List String)
deriving DecidableEq, Repr

/-- Apply one operation: `create` truncates to an empty file, `write`
appends, `rename` moves over any existing target, `setTime` updates the
mtime, `mkdirAll` records the directory and its ancestors. -/
def applyOp (s : FState) : FsOp → FState
  | .create p => setFile s p ([], ⟨0, 0⟩)
  | .write p bytes =>
    match s.lookup p with
    | none => s
    | some (c, t) => setFile s p (c ++ bytes, t)
  | .rename src dst =>
    match s.lookup src with
    | none => s
    | some v => setFile (removeFile s src) dst v
  | .setTime p t =>
    match s.lookup p with
    | none => s
    | some (c, _) => setFile s p (c, t)
  | .mkdirAll p => { s with dirs := ancestorDirs p ++ s.dirs }

/-- Apply a trace of operations. -/
def applyOps (s : FState) (ops : List FsOp) : FState := ops.foldl applyOp s

/-- Every state an interrupted run can leave behind: the initial state, each
intermediate state, and the final state. -/
def statesAlong (s : FState) : List FsOp → List FState
  | [] => [s]
  | op :: rest => s :: statesAlong (applyOp s op) rest

/-- Whether an operation can change the file at `p`. -/
def opTouches (op : FsOp) (p : List String) : Bool :=
  match op with
  | .create q => q == p
  | .write q _ => q == p
  | .rename src dst => src == p || dst == p
  | .setTime q _ => q == p
  | .mkdirAll _ => false

theorem lookup_setFile_self (s : FState) (p : List String) (v : List Nat × MTime) :
    (setFile s p v).lookup p = some v := by
  simp [FState.lookup, setFile]

theorem find?_filter_ne (l : List (List String × List Nat × MTime)) (p q : List String)
    (h : ¬q = p) :
    List.find? (fun e => e.1 == q) (l.filter (fun e => !(e.1 == p))) =
      List.find? (fun e => e.1 == q) l := by
  induction l with
  | nil => rfl
  | cons e rest ih =>
    by_cases hq : e.1 = q
    · rw [List.filter_cons, if_pos (by simp [hq, h]),
        List.find?_cons_of_pos _ (by simp [hq]), List.find?_cons_of_pos _ (by simp [hq])]
    · by_cases hp : e.1 = p
      · rw [List.filter_cons, if_neg (by simp [hp]),
          List.find?_cons_of_neg _ (by simp [hq]), ih]
      · rw [List.filter_cons, if_pos (by simp [hp]),
          List.find?_cons_of_neg _ (by simp [hq]),
          List.find?_cons_of_neg _ (by simp [hq]), ih]

theorem lookup_setFile_ne (s : FState) (p q : List String) (v : List Nat × MTime)
    (h : ¬q = p) : (setFile s p v).lookup q = s.lookup q := by
  simp only [FState.lookup, setFile]
  rw [List.find?_cons_of_neg _ (by simp [Ne.symm h]), find?_filter_ne s.files p q h]

theorem lookup_removeFile_ne (s : FState) (p q : List String) (h : ¬q = p) :
    (removeFile s p).lookup q = s.lookup q := by
  simp only [FState.lookup, removeFile]
  rw [find?_filter_ne s.files p q h]

theorem lookup_applyOp_untouched (s : FState) (op : FsOp) (p : List String)
    (h : opTouches op p = false) : (applyOp s op).lookup p = s.lookup p := by
  cases op with
  | create q =>
    rw [opTouches] at h
    simp only [beq_eq_false_iff_ne, ne_eq] at h
    rw [applyOp, lookup_setFile_ne _ _ _ _ (fun hq => h hq.symm)]
  | write q bytes =>
    rw [opTouches] at h
    simp only [beq_eq_false_iff_ne, ne_eq] at h
    rw [applyOp]
    cases s.lookup q with
    | none => rfl
    | some v => exact lookup_setFile_ne _ _ _ _ (fun hq => h hq.symm)
  | rename src dst =>
    rw [opTouches] at h
    simp only [Bool.or_eq_false_iff, beq_eq_false_iff_ne, ne_eq] at h
    rw [applyOp]
    cases s.lookup src with
    | none => rfl
    | some v =>
      rw [lookup_setFile_ne _ _ _ _ (fun hq => h.2 hq.symm),
        lookup_removeFile_ne _ _ _ (fun hq => h.1 hq.symm)]
  | setTime q t =>
    rw [opTouches] at h
    simp only [beq_eq_false_iff_ne, ne_eq] at h
    rw [applyOp]
    cases s.lookup q with
    | none => rfl
    | some v => exact lookup_setFile_ne _ _ _ _ (fun hq => h hq.symm)
  | mkdirAll q => rfl

theorem lookup_along_untouched (p : List String) : ∀ (ops : List FsOp) (s : FState),
    (∀ op ∈ ops, opTouches op p = false) →
    ∀ s' ∈ statesAlong s ops, s'.lookup p = s.lookup p := by
  intro ops
  induction ops with
  | nil =>
    intro s _ s' hs'
    rw [statesAlong, List.mem_singleton] at hs'
    rw [hs']
  | cons op rest ih =>
    intro s h s' hs'
    rw [statesAlong, List.mem_cons] at hs'
    rcases hs' with rfl | hs'
    · rfl
    · rw [ih (applyOp s op) (fun o ho => h o (List.mem_cons_of_mem _ ho)) s' hs',
        lookup_applyOp_untouched s op p (h op (List.mem_cons_self ..))]

theorem applyOps_untouched (p : List String) (ops : List FsOp) (s : FState)
    (h : ∀ op ∈ ops, opTouches op p = false) :
    (applyOps s ops).lookup p = s.lookup p := by
  induction ops generalizing s with
  | nil => rfl
  | cons op rest ih =>
    rw [applyOps, List.foldl_cons]
    rw [show List.foldl applyOp (applyOp s op) rest = applyOps (applyOp s op) rest from rfl]
    rw [ih (applyOp s op) (fun o ho => h o (List.mem_cons_of_mem _ ho))]
    exact lookup_applyOp_untouched s op p (h op (List.mem_cons_self ..))

/-- Writing a chunk list onto an existing file appends its flattening. -/
theorem applyOps_writes (q : List String) (chunks : List (List Nat)) (s : FState)
    (c : List Nat) (t : MTime) (h : s.lookup q = some (c, t)) :
    (applyOps s (chunks.map (FsOp.write q))).lookup q = some (c ++ chunks.flatten, t) := by
  induction chunks generalizing s c with
  | nil => simpa [applyOps] using h
  | cons ch rest ih =>
    rw [List.map_cons, applyOps, List.foldl_cons]
    rw [show List.foldl applyOp (applyOp s (FsOp.write q ch)) (rest.map (FsOp.write q)) =
      applyOps (applyOp s (FsOp.write q ch)) (rest.map (FsOp.write q)) from rfl]
    rw [show applyOp s (FsOp.write q ch) = setFile s q (c ++ ch, t) by rw [applyOp, h]]
    rw [ih _ _ (lookup_setFile_self ..)]
    simp

theorem statesAlong_append (a b : List FsOp) (s : FState) :
    statesAlong s (a ++ b) = (statesAlong s a).dropLast ++ statesAlong (applyOps s a) b := by
  induction a generalizing s with
  | nil => rfl
  | cons op rest ih =>
    rw [List.cons_append, statesAlong, statesAlong, ih (applyOp s op)]
    rw [show applyOps (applyOp s op) rest = applyOps s (op :: rest) from rfl]
    cases hr : statesAlong (applyOp s op) rest with
    | nil => cases rest <;> simp [statesAlong] at hr
    | cons x xs => simp

/-- The `remote::FileAttributes`: size, and the mtime as `FileTime` splits it. -/
structure FileAttributes where
  size : Nat
  secs : Int
  nanos : Nat
deriving DecidableEq, Repr

/-- Two's-complement image of an `i64`, as bincode writes it. -/
def encSecs (s : Int) : Nat := (s % 18446744073709551616).toNat

/-- bincode encoding of `FileAttributes`: `u64` size, `i64` seconds, `u32`
nanoseconds, all little-endian. -/
def encodeAttrs (a : FileAttributes) : List Nat :=
  le64 a.size ++ le64 (encSecs a.secs) ++ leBytes 4 a.nanos

/-- Read an `i64` (little-endian two's complement). -/
def readI64 (limit : Option Nat) (consumed : Nat) (bs : List Nat) :
    Except Unit (Int × List Nat × Nat) :=
  match readU64 limit consumed bs with
  | Except.error e => Except.error e
  | Except.ok (n, rest, c) =>
    Except.ok ((if n < 9223372036854775808 then (n : Int)
                else (n : Int) - 18446744073709551616), rest, c)

/-- Decode `FileAttributes`. -/
def readAttrs (limit : Option Nat) (consumed : Nat) (bs : List Nat) :
    Except Unit (FileAttributes × List Nat × Nat) :=
  match readU64 limit consumed bs with
  | Except.error e => Except.error e
  | Except.ok (size, bs1, c1) =>
    match readI64 limit c1 bs1 with
    | Except.error e => Except.error e
    | Except.ok (secs, bs2, c2) =>
      match readBytes limit c2 4 bs2 with
      | Except.error e => Except.error e
      | Except.ok (w, bs3, c3) => Except.ok (⟨size, secs, fromLE w⟩, bs3, c3)

/-- Attributes representable on the wire: `u64` size, `i64` seconds, `u32`
nanoseconds. -/
def wfAttrs (a : FileAttributes) : Bool :=
  (a.size < 18446744073709551616) && (-9223372036854775808 ≤ a.secs) &&
    (a.secs < 9223372036854775808) && (a.nanos < 4294967296)

theorem encSecs_lt (s : Int) : encSecs s < 18446744073709551616 := by
  rw [encSecs]
  omega

theorem decode_encSecs (s : Int) (h0 : -9223372036854775808 ≤ s)
    (h1 : s < 9223372036854775808) :
    (if encSecs s < 9223372036854775808 then ((encSecs s : Nat) : Int)
     else ((encSecs s : Nat) : Int) - 18446744073709551616) = s := by
  rw [encSecs]
  split <;> omega

/-- Decoding an encoded `FileAttributes` under the wire limit consumes
exactly its 20 bytes and returns the attributes. -/
theorem readAttrs_enc (a : FileAttributes) (rest : List Nat) (h : wfAttrs a = true) :
    readAttrs (some wireLimit) 0 (encodeAttrs a ++ rest) =
      Except.ok (a, rest, 20) := by
  rw [wfAttrs, Bool.and_eq_true, Bool.and_eq_true, Bool.and_eq_true] at h
  obtain ⟨⟨⟨h0, h1⟩, h2⟩, h3⟩ := h
  simp only [decide_eq_true_eq] at h0 h1 h2 h3
  rw [readAttrs, encodeAttrs, List.append_assoc, List.append_assoc]
  simp only [readU64_wire_le64 0 a.size _ (by norm_num [wireLimit]) h0]
  rw [readI64]
  simp only [readU64_wire_le64 8 (encSecs a.secs) _ (by norm_num [wireLimit]) (encSecs_lt _)]
  simp only [decode_encSecs a.secs h1 h2]
  simp only [readBytes_some_exact wireLimit 16 4 (leBytes 4 a.nanos) rest
    (leBytes_length 4 a.nanos) (by norm_num [wireLimit]), fromLE_leBytes 4 a.nanos]
  rw [Nat.mod_eq_of_lt (by norm_num; exact h3)]

/-- The `SendFile` branch of `command_handler_loop` with the default file
access: stat the file under the server root, then write the encoded
attributes immediately followed by exactly `size` content bytes. -/
def serveSendFile (st : FState) (serverRoot segs : List String) :
    Except Unit (List Nat) :=
  match st.lookup (serverRoot ++ segs) with
  | none => Except.error ()
  | some (c, mt) => Except.ok (encodeAttrs ⟨c.length, mt.secs, mt.nanos⟩ ++ c)

/-- The `LocalTransmitter::transmit`: `create_dir_all` when the target's parent
is missing, then `fs::copy` (create, then the copy loop's buffered writes —
`chunk` is the buffering, its flattening the file content), then
`set_file_mtime` to the source's mtime.  Fails when the source is missing. -/
def localTransmitOps (st : FState) (sourceRoot targetRoot p : List String)
    (chunk : List Nat → List (List Nat)) : Except Unit (List FsOp) :=
  match st.lookup (sourceRoot ++ p) with
  | none => Except.error ()
  | some (c, mt) =>
    Except.ok ((if (targetRoot ++ p).dropLast ∈ st.dirs then []
                else [FsOp.mkdirAll (targetRoot ++ p).dropLast]) ++
      (FsOp.create (targetRoot ++ p) :: (chunk c).map (FsOp.write (targetRoot ++ p))) ++
      [FsOp.setTime (targetRoot ++ p) mt])

/-- The `CommandTransmitter::transmit` after the `SendFile` command is written:
read the attributes from the input stream, then `save_file_with_tempfile`
(ensure the parent directory, create a temp file beside the target, copy
`reader.take(size)` into it, atomically rename over the target), then set the
target's mtime from the attributes.  Returns the issued operations and the
unconsumed remainder of the input stream. -/
def commandTransmitOps (st : FState) (root p : List String) (input : List Nat)
    (tmpName : String) (chunk : List Nat → List (List Nat)) :
    Except Unit (List FsOp × List Nat) :=
  match readAttrs (some wireLimit) 0 input with
  | Except.error e => Except.error e
  | Except.ok (attrs, rest, _) =>
    Except.ok (((if (root ++ p).dropLast ∈ st.dirs then []
                 else [FsOp.mkdirAll (root ++ p).dropLast]) ++
      (FsOp.create ((root ++ p).dropLast ++ [tmpName]) ::
        (chunk (rest.take attrs.size)).map
          (FsOp.write ((root ++ p).dropLast ++ [tmpName]))) ++
      [FsOp.rename ((root ++ p).dropLast ++ [tmpName]) (root ++ p),
       FsOp.setTime (root ++ p) ⟨attrs.secs, attrs.nanos⟩]),
      rest.drop attrs.size)

/-- The bytes visible at `p`, disregarding the mtime. -/
def contentAt (s : FState) (p : List String) : Option (List Nat) :=
  (s.lookup p).map (fun v => v.1)

theorem ancestorDirs_self : ∀ q : List String, q ∈ ancestorDirs q := by
  intro q
  induction q with
  | nil => rw [ancestorDirs]; exact List.mem_singleton.2 rfl
  | cons x rest ih =>
    rw [ancestorDirs]
    exact List.mem_cons_of_mem _ (List.mem_map_of_mem _ ih)

theorem dirs_sub_applyOp (s : FState) (op : FsOp) : s.dirs ⊆ (applyOp s op).dirs := by
  cases op with
  | create p => exact fun q hq => hq
  | write p bytes =>
    rw [applyOp]
    cases s.lookup p with
    | none => exact fun q hq => hq
    | some v => exact fun q hq => hq
  | rename src dst =>
    rw [applyOp]
    cases s.lookup src with
    | none => exact fun q hq => hq
    | some v => exact fun q hq => hq
  | setTime p t =>
    rw [applyOp]
    cases s.lookup p with
    | none => exact fun q hq => hq
    | some v => exact fun q hq => hq
  | mkdirAll p => exact fun q hq => List.mem_append_right _ hq

theorem dirs_sub_applyOps (ops : List FsOp) : ∀ s : FState,
    s.dirs ⊆ (applyOps s ops).dirs := by
  induction ops with
  | nil => exact fun s q hq => hq
  | cons op rest ih =>
    intro s
    exact fun q hq => ih (applyOp s op) (dirs_sub_applyOp s op hq)

theorem contentAt_setTime (s : FState) (q : List String) (t : MTime) :
    contentAt (applyOp s (FsOp.setTime q t)) q = contentAt s q := by
  cases hq : s.lookup q with
  | none => simp [contentAt, applyOp, hq]
  | some v =>
    obtain ⟨c, t'⟩ := v
    simp [contentAt, applyOp, hq, lookup_setFile_self]

/-- C8 (confirmed): reading the body of a `SendFile` response consumes
exactly `size` bytes: on a stream carrying the encoded attributes, a body of
exactly `size` bytes, and then arbitrary further commands, `transmit` returns
with precisely those further bytes unconsumed. -/
theorem C8_exact_body :
    ∀ (st : FState) (root p : List String) (a : FileAttributes)
      (body rest : List Nat) (tmpName : String) (chunk : List Nat → List (List Nat)),
      wfAttrs a = true → body.length = a.size →
      ∃ ops, commandTransmitOps st root p (encodeAttrs a ++ (body ++ rest)) tmpName chunk =
        Except.ok (ops, rest) := by
  intro st root p a body rest tmpName chunk hwf hlen
  rw [commandTransmitOps]
  simp only [readAttrs_enc a (body ++ rest) hwf]
  rw [← hlen, List.take_left, List.drop_left]
  exact ⟨_, rfl⟩

/-- C8 witness: a concrete 3-byte body is consumed exactly. -/
theorem C8_exact_body_witness :
    ∃ ops, commandTransmitOps ⟨[], [["t"]]⟩ ["t"] ["f"]
        (encodeAttrs ⟨3, 0, 0⟩ ++ ([7, 8, 9] ++ [42])) "tmp0" (fun c => [c]) =
      Except.ok (ops, [42]) :=
  C8_exact_body ⟨[], [["t"]]⟩ ["t"] ["f"] ⟨3, 0, 0⟩ [7, 8, 9] [42] "tmp0" (fun c => [c])
    (by decide) (by decide)

theorem applyOps_append (s : FState) (a b : List FsOp) :
    applyOps s (a ++ b) = applyOps (applyOps s a) b := by
  rw [applyOps, applyOps, applyOps, List.foldl_append]

/-- After create, buffered writes and a final mtime set, the file holds the
written bytes and the set mtime. -/
theorem createWriteSet_post (s : FState) (q : List String) (chunks : List (List Nat))
    (mt : MTime) :
    (applyOps s ((FsOp.create q :: chunks.map (FsOp.write q)) ++
        [FsOp.setTime q mt])).lookup q = some (chunks.flatten, mt) := by
  rw [applyOps_append]
  have h1 : (applyOps s (FsOp.create q :: chunks.map (FsOp.write q))).lookup q =
      some (chunks.flatten, (⟨0, 0⟩ : MTime)) := by
    rw [show applyOps s (FsOp.create q :: chunks.map (FsOp.write q)) =
      applyOps (applyOp s (FsOp.create q)) (chunks.map (FsOp.write q)) from rfl]
    have hc : (applyOp s (FsOp.create q)).lookup q = some ([], (⟨0, 0⟩ : MTime)) := by
      rw [applyOp]
      exact lookup_setFile_self ..
    have := applyOps_writes q chunks (applyOp s (FsOp.create q)) [] ⟨0, 0⟩ hc
    simpa using this
  rw [show applyOps (applyOps s (FsOp.create q :: chunks.map (FsOp.write q)))
      [FsOp.setTime q mt] =
    applyOp (applyOps s (FsOp.create q :: chunks.map (FsOp.write q)))
      (FsOp.setTime q mt) from rfl]
  simp only [applyOp, h1, lookup_setFile_self]

/-- After create and writes into a temp file, an atomic rename over the
target and a final mtime set, the target holds the written bytes and the set
mtime. -/
theorem tmpRenameSet_post (s : FState) (tmp target : List String)
    (chunks : List (List Nat)) (mt : MTime) :
    (applyOps s ((FsOp.create tmp :: chunks.map (FsOp.write tmp)) ++
        [FsOp.rename tmp target, FsOp.setTime target mt])).lookup target =
      some (chunks.flatten, mt) := by
  rw [applyOps_append]
  have h1 : (applyOps s (FsOp.create tmp :: chunks.map (FsOp.write tmp))).lookup tmp =
      some (chunks.flatten, (⟨0, 0⟩ : MTime)) := by
    rw [show applyOps s (FsOp.create tmp :: chunks.map (FsOp.write tmp)) =
      applyOps (applyOp s (FsOp.create tmp)) (chunks.map (FsOp.write tmp)) from rfl]
    have hc : (applyOp s (FsOp.create tmp)).lookup tmp = some ([], (⟨0, 0⟩ : MTime)) := by
      rw [applyOp]
      exact lookup_setFile_self ..
    have := applyOps_writes tmp chunks (applyOp s (FsOp.create tmp)) [] ⟨0, 0⟩ hc
    simpa using this
  rw [show applyOps (applyOps s (FsOp.create tmp :: chunks.map (FsOp.write tmp)))
      [FsOp.rename tmp target, FsOp.setTime target mt] =
    applyOp (applyOp (applyOps s (FsOp.create tmp :: chunks.map (FsOp.write tmp)))
      (FsOp.rename tmp target)) (FsOp.setTime target mt) from rfl]
  simp only [applyOp, h1, lookup_setFile_self]

theorem localTransmit_post (st : FState) (sourceRoot targetRoot p : List String)
    (chunk : List Nat → List (List Nat)) (c : List Nat) (mt : MTime)
    (hsrc : st.lookup (sourceRoot ++ p) = some (c, mt))
    (hch : ∀ x, (chunk x).flatten = x) :
    ∃ ops, localTransmitOps st sourceRoot targetRoot p chunk = Except.ok ops ∧
      (applyOps st ops).lookup (targetRoot ++ p) = some (c, mt) ∧
      (targetRoot ++ p).dropLast ∈ (applyOps st ops).dirs := by
  rw [localTransmitOps]
  simp only [hsrc]
  by_cases hd : (targetRoot ++ p).dropLast ∈ st.dirs
  · rw [if_pos hd, List.nil_append]
    refine ⟨_, rfl, ?_, ?_⟩
    · rw [createWriteSet_post st (targetRoot ++ p) (chunk c) mt, hch]
    · exact dirs_sub_applyOps _ st hd
  · rw [if_neg hd, List.append_assoc, List.singleton_append]
    refine ⟨_, rfl, ?_, ?_⟩
    · rw [show applyOps st (FsOp.mkdirAll (targetRoot ++ p).dropLast ::
          ((FsOp.create (targetRoot ++ p) ::
            (chunk c).map (FsOp.write (targetRoot ++ p))) ++
           [FsOp.setTime (targetRoot ++ p) mt])) =
        applyOps (applyOp st (FsOp.mkdirAll (targetRoot ++ p).dropLast))
          ((FsOp.create (targetRoot ++ p) ::
            (chunk c).map (FsOp.write (targetRoot ++ p))) ++
           [FsOp.setTime (targetRoot ++ p) mt]) from rfl]
      rw [createWriteSet_post _ (targetRoot ++ p) (chunk c) mt, hch]
    · rw [show applyOps st (FsOp.mkdirAll (targetRoot ++ p).dropLast ::
          ((FsOp.create (targetRoot ++ p) ::
            (chunk c).map (FsOp.write (targetRoot ++ p))) ++
           [FsOp.setTime (targetRoot ++ p) mt])) =
        applyOps (applyOp st (FsOp.mkdirAll (targetRoot ++ p).dropLast))
          ((FsOp.create (targetRoot ++ p) ::
            (chunk c).map (FsOp.write (targetRoot ++ p))) ++
           [FsOp.setTime (targetRoot ++ p) mt]) from rfl]
      refine dirs_sub_applyOps _ _ ?_
      rw [show (applyOp st (FsOp.mkdirAll (targetRoot ++ p).dropLast)).dirs =
        ancestorDirs (targetRoot ++ p).dropLast ++ st.dirs from rfl]
      exact List.mem_append_left _ (ancestorDirs_self _)

theorem commandTransmit_post (st : FState) (root p : List String) (tmpName : String)
    (chunk : List Nat → List (List Nat)) (c : List Nat) (mt : MTime) (extra : List Nat)
    (hch : ∀ x, (chunk x).flatten = x)
    (hwf : wfAttrs ⟨c.length, mt.secs, mt.nanos⟩ = true) :
    ∃ ops, commandTransmitOps st root p
        (encodeAttrs ⟨c.length, mt.secs, mt.nanos⟩ ++ (c ++ extra)) tmpName chunk =
        Except.ok (ops, extra) ∧
      (applyOps st ops).lookup (root ++ p) = some (c, mt) ∧
      (root ++ p).dropLast ∈ (applyOps st ops).dirs := by
  rw [commandTransmitOps]
  simp only [readAttrs_enc _ _ hwf]
  rw [List.take_left, List.drop_left,
    show (⟨mt.secs, mt.nanos⟩ : MTime) = mt from rfl]
  by_cases hd : (root ++ p).dropLast ∈ st.dirs
  · rw [if_pos hd, List.nil_append]
    refine ⟨_, rfl, ?_, ?_⟩
    · rw [tmpRenameSet_post st ((root ++ p).dropLast ++ [tmpName]) (root ++ p)
        (chunk c) mt, hch]
    · exact dirs_sub_applyOps _ st hd
  · rw [if_neg hd, List.append_assoc, List.singleton_append]
    refine ⟨_, rfl, ?_, ?_⟩
    · rw [show applyOps st (FsOp.mkdirAll (root ++ p).dropLast ::
          ((FsOp.create ((root ++ p).dropLast ++ [tmpName]) ::
            (chunk c).map (FsOp.write ((root ++ p).dropLast ++ [tmpName]))) ++
           [FsOp.rename ((root ++ p).dropLast ++ [tmpName]) (root ++ p),
            FsOp.setTime (root ++ p) mt])) =
        applyOps (applyOp st (FsOp.mkdirAll (root ++ p).dropLast))
          ((FsOp.create ((root ++ p).dropLast ++ [tmpName]) ::
            (chunk c).map (FsOp.write ((root ++ p).dropLast ++ [tmpName]))) ++
           [FsOp.rename ((root ++ p).dropLast ++ [tmpName]) (root ++ p),
            FsOp.setTime (root ++ p) mt]) from rfl]
      rw [tmpRenameSet_post _ ((root ++ p).dropLast ++ [tmpName]) (root ++ p)
        (chunk c) mt, hch]
    · rw [show applyOps st (FsOp.mkdirAll (root ++ p).dropLast ::
          ((FsOp.create ((root ++ p).dropLast ++ [tmpName]) ::
            (chunk c).map (FsOp.write ((root ++ p).dropLast ++ [tmpName]))) ++
           [FsOp.rename ((root ++ p).dropLast ++ [tmpName]) (root ++ p),
            FsOp.setTime (root ++ p) mt])) =
        applyOps (applyOp st (FsOp.mkdirAll (root ++ p).dropLast))
          ((FsOp.create ((root ++ p).dropLast ++ [tmpName]) ::
            (chunk c).map (FsOp.write ((root ++ p).dropLast ++ [tmpName]))) ++
           [FsOp.rename ((root ++ p).dropLast ++ [tmpName]) (root ++ p),
            FsOp.setTime (root ++ p) mt]) from rfl]
      refine dirs_sub_applyOps _ _ ?_
      rw [show (applyOp st (FsOp.mkdirAll (root ++ p).dropLast)).dirs =
        ancestorDirs (root ++ p).dropLast ++ st.dirs from rfl]
      exact List.mem_append_left _ (ancestorDirs_self _)

/-- C4 (confirmed): on success, both transmitters leave the target-side file
at the relative path existing with the source file's byte content and the
source file's modification time, creating intermediate directories as
needed.  For the command transmitter the input stream is exactly what the
server's `SendFile` handler wrote for the source file. -/
theorem C4_transmit :
    (∀ (st : FState) (sourceRoot targetRoot p : List String)
        (chunk : List Nat → List (List Nat)) (c : List Nat) (mt : MTime),
        st.lookup (sourceRoot ++ p) = some (c, mt) →
        (∀ x, (chunk x).flatten = x) →
        ∃ ops, localTransmitOps st sourceRoot targetRoot p chunk = Except.ok ops ∧
          (applyOps st ops).lookup (targetRoot ++ p) = some (c, mt) ∧
          (targetRoot ++ p).dropLast ∈ (applyOps st ops).dirs) ∧
      (∀ (stS stC : FState) (serverRoot segs root p : List String) (tmpName : String)
        (chunk : List Nat → List (List Nat)) (c : List Nat) (mt : MTime)
        (extra stream : List Nat),
        stS.lookup (serverRoot ++ segs) = some (c, mt) →
        serveSendFile stS serverRoot segs = Except.ok stream →
        (∀ x, (chunk x).flatten = x) →
        wfAttrs ⟨c.length, mt.secs, mt.nanos⟩ = true →
        ∃ ops, commandTransmitOps stC root p (stream ++ extra) tmpName chunk =
            Except.ok (ops, extra) ∧
          (applyOps stC ops).lookup (root ++ p) = some (c, mt) ∧
          (root ++ p).dropLast ∈ (applyOps stC ops).dirs) := by
  constructor
  · exact fun st sr tr p chunk c mt hsrc hch =>
      localTransmit_post st sr tr p chunk c mt hsrc hch
  · intro stS stC serverRoot segs root p tmpName chunk c mt extra stream hsrc hserve hch hwf
    have hstream : stream = encodeAttrs ⟨c.length, mt.secs, mt.nanos⟩ ++ c := by
      rw [serveSendFile] at hserve
      simp only [hsrc, Except.ok.injEq] at hserve
      exact hserve.symm
    rw [hstream, List.append_assoc]
    exact commandTransmit_post stC root p tmpName chunk c mt extra hch hwf

/-- C4 witness: both transmitters applied to a concrete one-byte file. -/
theorem C4_transmit_witness :
    (∃ ops, localTransmitOps ⟨[(["s", "f"], [7], ⟨5, 6⟩)], []⟩ ["s"] ["t"] ["f"]
          (fun x => [x]) = Except.ok ops ∧
        (applyOps ⟨[(["s", "f"], [7], ⟨5, 6⟩)], []⟩ ops).lookup ["t", "f"] =
          some ([7], ⟨5, 6⟩) ∧
        ["t"] ∈ (applyOps ⟨[(["s", "f"], [7], ⟨5, 6⟩)], []⟩ ops).dirs) ∧
      (∃ ops, commandTransmitOps ⟨[], []⟩ ["t"] ["f"]
            ((encodeAttrs ⟨1, 5, 6⟩ ++ [7]) ++ []) "tmp0" (fun x => [x]) =
            Except.ok (ops, []) ∧
          (applyOps ⟨[], []⟩ ops).lookup ["t", "f"] = some ([7], ⟨5, 6⟩) ∧
          ["t"] ∈ (applyOps ⟨[], []⟩ ops).dirs) :=
  ⟨C4_transmit.1 ⟨[(["s", "f"], [7], ⟨5, 6⟩)], []⟩ ["s"] ["t"] ["f"] (fun x => [x])
      [7] ⟨5, 6⟩ (by decide) (fun x => by simp),
    C4_transmit.2 ⟨[(["s", "f"], [7], ⟨5, 6⟩)], []⟩ ⟨[], []⟩ ["s"] ["f"] ["t"] ["f"]
      "tmp0" (fun x => [x]) [7] ⟨5, 6⟩ [] (encodeAttrs ⟨1, 5, 6⟩ ++ [7]) (by decide)
      (by decide) (fun x => by simp) (by decide)⟩

/-- C5 (amended): during a command-transmitter transfer, with the temp file
named differently from the target, every intermediate state shows at the
target either the old content (or absence) or the complete new content —
never a partial file, because the bytes are staged into the temp file and
renamed over the target in one operation. -/
theorem C5_transmit_atomicity :
    ∀ (st : FState) (root p : List String) (input : List Nat) (tmpName : String)
      (chunk : List Nat → List (List Nat)) (ops : List FsOp) (rem : List Nat),
      commandTransmitOps st root p input tmpName chunk = Except.ok (ops, rem) →
      (root ++ p).dropLast ++ [tmpName] ≠ root ++ p →
      ∀ s' ∈ statesAlong st ops,
        contentAt s' (root ++ p) = contentAt st (root ++ p) ∨
        contentAt s' (root ++ p) = contentAt (applyOps st ops) (root ++ p) := by
  intro st root p input tmpName chunk ops rem hok hne s' hs'
  rw [commandTransmitOps] at hok
  cases hra : readAttrs (some wireLimit) 0 input with
  | error e => rw [hra] at hok; cases hok
  | ok trip =>
    obtain ⟨attrs, rest, k⟩ := trip
    rw [hra] at hok
    simp only [Except.ok.injEq, Prod.mk.injEq] at hok
    obtain ⟨rfl, rfl⟩ := hok
    have hA : ∀ op ∈ ((if (root ++ p).dropLast ∈ st.dirs then []
          else [FsOp.mkdirAll (root ++ p).dropLast]) ++
        (FsOp.create ((root ++ p).dropLast ++ [tmpName]) ::
          (chunk (rest.take attrs.size)).map
            (FsOp.write ((root ++ p).dropLast ++ [tmpName])))),
        opTouches op (root ++ p) = false := by
      intro op hop
      rcases List.mem_append.1 hop with hop | hop
      · split at hop
        · cases hop
        · rw [List.mem_singleton] at hop
          rw [hop]
          rfl
      · rw [List.mem_cons] at hop
        rcases hop with rfl | hop
        · rw [opTouches]
          simp [hne]
        · obtain ⟨ch, _, rfl⟩ := List.mem_map.1 hop
          rw [opTouches]
          simp [hne]
    rw [statesAlong_append] at hs'
    rcases List.mem_append.1 hs' with hs' | hs'
    · left
      rw [contentAt, contentAt,
        lookup_along_untouched (root ++ p) _ st hA s' (List.mem_of_mem_dropLast hs')]
    · rw [applyOps_append]
      set sA := applyOps st ((if (root ++ p).dropLast ∈ st.dirs then []
          else [FsOp.mkdirAll (root ++ p).dropLast]) ++
        (FsOp.create ((root ++ p).dropLast ++ [tmpName]) ::
          (chunk (rest.take attrs.size)).map
            (FsOp.write ((root ++ p).dropLast ++ [tmpName])))) with hsA
      rw [statesAlong, statesAlong, statesAlong, List.mem_cons, List.mem_cons,
        List.mem_singleton] at hs'
      rcases hs' with rfl | rfl | rfl
      · left
        rw [contentAt, contentAt, hsA, applyOps_untouched (root ++ p) _ st hA]
      · right
        rw [show applyOps sA
            [FsOp.rename ((root ++ p).dropLast ++ [tmpName]) (root ++ p),
             FsOp.setTime (root ++ p) ⟨attrs.secs, attrs.nanos⟩] =
          applyOp (applyOp sA (FsOp.rename ((root ++ p).dropLast ++ [tmpName]) (root ++ p)))
            (FsOp.setTime (root ++ p) ⟨attrs.secs, attrs.nanos⟩) from rfl]
        rw [contentAt_setTime]
      · right
        rfl

/-- The local filesystem for the C5 counterexample: a 3-byte source file and
an existing target directory. -/
def stC5 : FState := ⟨[(["s", "f"], [1, 2, 3], epoch)], [["t"]]⟩

/-- The operations `LocalTransmitter::transmit` issues in that state. -/
def opsC5 : List FsOp :=
  [FsOp.create ["t", "f"], FsOp.write ["t", "f"] [1, 2, 3],
   FsOp.setTime ["t", "f"] epoch]

/-- The state after `fs::copy` created (truncated) the target but before the
content was written. -/
def midC5 : FState := applyOp stC5 (FsOp.create ["t", "f"])

/-- C5, counterexample: `LocalTransmitter::transmit` copies straight onto the
target (no temp file, no rename); right after `fs::copy` creates the target,
an intermediate state shows an empty file there — neither the old state
(absent) nor the complete content — so a partial file is visible at
`target/p` during a local transmit. -/
theorem C5_counterexample :
    localTransmitOps stC5 ["s"] ["t"] ["f"] (fun x => [x]) = Except.ok opsC5 ∧
      midC5 ∈ statesAlong stC5 opsC5 ∧
      contentAt midC5 ["t", "f"] ≠ contentAt stC5 ["t", "f"] ∧
      contentAt midC5 ["t", "f"] ≠ contentAt (applyOps stC5 opsC5) ["t", "f"] :=
  ⟨by decide, by decide, by decide, by decide⟩

/-- The initial state, trace and create-stage state of the C5 witness. -/
def stW5 : FState := ⟨[], []⟩

/-- The operations of the witness transfer. -/
def opsW5 : List FsOp :=
  [FsOp.mkdirAll ["t"], FsOp.create ["t", "tmp0"], FsOp.write ["t", "tmp0"] [9],
   FsOp.rename ["t", "tmp0"] ["t", "f"], FsOp.setTime ["t", "f"] ⟨0, 0⟩]

/-- The state after the temp file was created and written but not renamed. -/
def midW5 : FState := applyOps stW5 (opsW5.take 3)

/-- C5 witness: the atomicity theorem applied to a concrete transfer at the
state where the temp file is written but not yet renamed. -/
theorem C5_transmit_atomicity_witness :
    contentAt midW5 ["t", "f"] = contentAt stW5 ["t", "f"] ∨
      contentAt midW5 ["t", "f"] = contentAt (applyOps stW5 opsW5) ["t", "f"] :=
  C5_transmit_atomicity stW5 ["t"] ["f"] (encodeAttrs ⟨1, 0, 0⟩ ++ [9]) "tmp0"
    (fun x => [x]) opsW5 [] (by decide) (by decide) midW5 (by decide)

/-! ## `Manifest::create_persistent` (C6, C9, C10) -/

/-- The `tree::manifest_file`: an absolute configured path is used verbatim, a
relative one resolves under the root; `cfgAbs` is the absoluteness of the
configured `&Path`. -/
def manifest_file (root cfgPath : List String) (cfgAbs : Bool) : List String :=
  if cfgAbs then cfgPath else root ++ cfgPath

/-- The `Manifest::save`: `File::create(manifest_path)` followed by a buffered
serialize into it — a direct write to the final path, with no temp file and
no rename. -/
def saveOps (manifestPath : List String) (d : DirectoryEntry) : List FsOp :=
  [FsOp.create manifestPath, FsOp.write manifestPath (encodeDir d)]

/-- The rebuild branch of `create_persistent`: a full scan followed by
`Manifest::save` to the manifest path. -/
def rebuildAndSave (root : List String) (fs : Option FsNode)
    (excl : List String → Bool) (mode : ManifestMode) (mp : List String) :
    Except Unit (DirectoryEntry × List FsOp) :=
  match fs with
  | none => Except.error ()
  | some n =>
    match DirectoryEntry.createRoot root n excl mode with
    | Except.error e => Except.error e
    | Except.ok d => Except.ok (d, saveOps mp d)

/-- The `Manifest::create_persistent`: resolve the manifest path, add its string
form as an exclusion (`Pattern::new(..).unwrap()` panics — `none` — on an
invalid pattern), try `Manifest::load`, revalidate a loaded manifest, and on
any failure rebuild by a full scan and save directly to the manifest path.
The manifest file's bytes live beside the scanned tree and are passed
separately; the result carries the filesystem operations of the save (empty
when the loaded manifest was reused). -/
def createPersistent (root : List String) (fs : Option FsNode) (st : HashSettings)
    (cfgPath : List String) (cfgAbs : Bool) (manifestBytes : Option (List Nat)) :
    Option (Except Unit (DirectoryEntry × List FsOp)) :=
  match st.with_additional_exclusion (pathString (manifest_file root cfgPath cfgAbs)) with
  | none => none
  | some st' =>
    some (match
        (match manifestLoad st' manifestBytes with
         | Except.ok m =>
           if validateB m fs root (fun q => st'.is_excluded q) then Except.ok m
           else Except.error ()
         | Except.error e => Except.error e) with
      | Except.ok m => Except.ok (m, [])
      | Except.error _ =>
        rebuildAndSave root fs (fun q => st'.is_excluded q) st.mode
          (manifest_file root cfgPath cfgAbs))

/-- C9 (confirmed): an I/O error during revalidation (any failing stat or
directory read, e.g. an `ioErr` entry) is swallowed — `validate` returns
false rather than propagating it — and `create_persistent` consequently
takes the rebuild branch instead of failing with that error. -/
theorem C9_revalidate_error_swallowed :
    (∀ (d : DirectoryEntry) (fs : Option FsNode) (rootPath : List String)
        (excl : List String → Bool),
        validate0Root d fs rootPath excl = Except.error () →
        validateB d fs rootPath excl = false) ∧
      (∀ (d : DirectoryEntry) (cp : List String) (n : String)
        (excl : List String → Bool),
        validateNode d cp (FsNode.ioErr n) excl = Except.error ()) ∧
      (∀ (root : List String) (fs : Option FsNode) (st : HashSettings)
        (cfgPath : List String) (cfgAbs : Bool) (manifestBytes : Option (List Nat))
        (st' : HashSettings),
        st.with_additional_exclusion (pathString (manifest_file root cfgPath cfgAbs)) =
          some st' →
        (∀ m, manifestLoad st' manifestBytes = Except.ok m →
          validateB m fs root (fun q => st'.is_excluded q) = false) →
        createPersistent root fs st cfgPath cfgAbs manifestBytes =
          some (rebuildAndSave root fs (fun q => st'.is_excluded q) st.mode
            (manifest_file root cfgPath cfgAbs))) := by
  refine ⟨?_, ?_, ?_⟩
  · intro d fs rootPath excl h
    rw [validateB, h]
  · intro d cp n excl
    rfl
  · intro root fs st cfgPath cfgAbs manifestBytes st' hst' hval
    rw [createPersistent]
    simp only [hst']
    cases hload : manifestLoad st' manifestBytes with
    | error e => rfl
    | ok m => simp only [hval m hload, Bool.false_eq_true, if_false]

/-- C9 witness: a failing stat below the root makes `validate` return false,
and a failed load makes `create_persistent` rebuild. -/
theorem C9_revalidate_error_swallowed_witness :
    validateB dC3 (some (FsNode.dir "root" epoch [FsNode.ioErr "x"])) ["root"]
        (fun _ => false) = false ∧
      createPersistent ["r"] none ⟨false, ManifestMode.hash, []⟩ ["m"] false none =
        some (rebuildAndSave ["r"] none
          (fun q => (⟨false, ManifestMode.hash,
            [⟨[GTok.lit 'r', GTok.lit '/', GTok.lit 'm']⟩]⟩ : HashSettings).is_excluded q)
          ManifestMode.hash ["r", "m"]) :=
  ⟨C9_revalidate_error_swallowed.1 dC3 _ ["root"] (fun _ => false) (by decide),
    C9_revalidate_error_swallowed.2.2 ["r"] none ⟨false, ManifestMode.hash, []⟩ ["m"]
      false none _ (by decide)
      (fun m hm => by
        rw [show manifestLoad ⟨false, ManifestMode.hash,
          [⟨[GTok.lit 'r', GTok.lit '/', GTok.lit 'm']⟩]⟩ none =
            Except.error () from rfl] at hm
        cases hm)⟩

mutual

/-- Boolean structural equality of directory entries. -/
def beqDir (a b : DirectoryEntry) : Bool :=
  match a, b with
  | ⟨n, mt, sds, fs, hv⟩, ⟨n', mt', sds', fs', hv'⟩ =>
    n == n' && mt == mt' && beqDirList sds sds' && fs == fs' && hv == hv'
termination_by structural a

/-- Boolean structural equality of directory entry lists. -/
def beqDirList : List DirectoryEntry → List DirectoryEntry → Bool
  | [], [] => true
  | a :: as, b :: bs => beqDir a b && beqDirList as bs
  | _, _ => false
termination_by structural l => l

end

mutual

theorem beqDir_eq (a b : DirectoryEntry) : beqDir a b = true ↔ a = b :=
  match a, b with
  | ⟨n, mt, sds, fs, hv⟩, ⟨n', mt', sds', fs', hv'⟩ => by
    rw [beqDir]
    simp only [Bool.and_eq_true, beq_iff_eq, DirectoryEntry.mk.injEq]
    rw [beqDirList_eq sds sds']
    constructor
    · rintro ⟨⟨⟨⟨h1, h2⟩, h3⟩, h4⟩, h5⟩
      exact ⟨h1, h2, h3, h4, h5⟩
    · rintro ⟨h1, h2, h3, h4, h5⟩
      exact ⟨⟨⟨⟨h1, h2⟩, h3⟩, h4⟩, h5⟩
termination_by structural a

theorem beqDirList_eq (l l' : List DirectoryEntry) : beqDirList l l' = true ↔ l = l' :=
  match l, l' with
  | [], [] => by simp [beqDirList]
  | [], _ :: _ => by simp [beqDirList]
  | _ :: _, [] => by simp [beqDirList]
  | a :: as, b :: bs => by
    rw [beqDirList]
    simp only [Bool.and_eq_true, List.cons.injEq]
    rw [beqDir_eq a b, beqDirList_eq as bs]
termination_by structural l

end

instance instDecEqDirectoryEntry : DecidableEq DirectoryEntry :=
  fun a b => decidable_of_iff _ (beqDir_eq a b)

/-- The tree scanned by the C6 scenario: an empty root directory. -/
def fs6 : FsNode := FsNode.dir "r" epoch []

/-- The manifest the rebuild produces for it. -/
def d6 : DirectoryEntry :=
  { name := "r", modification_time := epoch, subdirs := [], files := [],
    hash_value := sha256 [] }

/-- Plain settings for the C6 scenario. -/
def st6 : HashSettings := ⟨false, ManifestMode.hash, []⟩

/-- The resolved manifest path of the C6 scenario. -/
def mp6 : List String := ["r", "m"]

/-- C6: when `create_persistent` cannot reuse a manifest (here: no manifest
file, so the load fails) it rebuilds by a full scan — but it persists with
`File::create` on the manifest path followed by a direct write: the trace
holds no rename and no temp file, and right after the create an intermediate
state shows an empty (partially written) manifest file at `manifest_path`,
which differs from both the prior state (absent) and the complete
encoding. -/
theorem C6_direct_save :
    createPersistent ["r"] (some fs6) st6 ["m"] false none =
        some (Except.ok (d6, [FsOp.create mp6, FsOp.write mp6 (encodeDir d6)])) ∧
      contentAt (applyOp ⟨[], [["r"]]⟩ (FsOp.create mp6)) mp6 = some [] ∧
      (some ([] : List Nat) ≠ some (encodeDir d6) ∧
        contentAt (⟨[], [["r"]]⟩ : FState) mp6 = none) ∧
      (saveOps mp6 d6).all (fun op => match op with
        | FsOp.rename _ _ => false
        | _ => true) = true :=
  ⟨by decide, by decide, ⟨by decide, by decide⟩, by decide⟩

/-- C10 (confirmed): `with_additional_exclusion` treats the path's string
form as a glob pattern: any string the pattern parser rejects (such as one
with an unclosed `[`) makes the call panic rather than return an error, so
`create_persistent` panics on such a manifest path; and a path containing
glob metacharacters yields an exclusion matching other files than the
manifest file itself. -/
theorem C10_exclusion_pattern :
    (∀ (st : HashSettings) (s : String), Pattern.new s = none →
        st.with_additional_exclusion s = none) ∧
      Pattern.new "[" = none ∧
      (∀ (root : List String) (fs : Option FsNode) (st : HashSettings)
        (cfgPath : List String) (cfgAbs : Bool) (bytes : Option (List Nat)),
        Pattern.new (pathString (manifest_file root cfgPath cfgAbs)) = none →
        createPersistent root fs st cfgPath cfgAbs bytes = none) ∧
      (∃ st', (⟨false, ManifestMode.hash, []⟩ : HashSettings).with_additional_exclusion
            "m*" = some st' ∧
          st'.is_excluded ["mXfile"] = true ∧ pathString ["mXfile"] ≠ "m*") := by
  refine ⟨?_, by decide, ?_, ?_⟩
  · intro st s h
    simp only [HashSettings.with_additional_exclusion, h]
  · intro root fs st cfgPath cfgAbs bytes h
    simp only [createPersistent, HashSettings.with_additional_exclusion, h]
  · exact ⟨⟨false, ManifestMode.hash, [⟨[GTok.lit 'm', GTok.star]⟩]⟩,
      by decide, by decide, by decide⟩

/-- C10 witness: the panic on an unclosed `[`, both directly and through
`create_persistent`. -/
theorem C10_exclusion_pattern_witness :
    (⟨false, ManifestMode.hash, []⟩ : HashSettings).with_additional_exclusion "[" =
        none ∧
      createPersistent ["r"] none ⟨false, ManifestMode.hash, []⟩ ["["] false none =
        none :=
  ⟨C10_exclusion_pattern.1 ⟨false, ManifestMode.hash, []⟩ "[" (by decide),
    C10_exclusion_pattern.2.2.1 ["r"] none ⟨false, ManifestMode.hash, []⟩ ["["] false
      none (by decide)⟩

end USync
